import Mathlib

/-!
# goupgrader: a shallow embedding of `pkg/cmd`

The development embeds the pure core of `pkg/cmd` (`config.go`, `generate.go`,
`go_mod.go`, `git.go`) and proves properties of it.

Modelling conventions.

* A Go `string` is a `Str`, the list of its Unicode code points: the embedding
  covers strings that are valid UTF-8. Where Go counts bytes (slicing, the
  line scanner's buffer) the embedding counts the UTF-8 size of each code
  point.
* Go's `int` is the 64-bit signed integer; arithmetic on it wraps (`wrapInt`).
* A Go `error` result is an `Option GoError` (`none` is `nil`); a `(T, error)`
  result is an `Except GoError T`, or a pair when the caller reads the value
  next to a non-nil error.
* The network and the external processes are arguments of the functions that
  use them.
-/

namespace GoUpgrader

/-- A Go string, as the list of its code points. -/
abbrev Str := List Char

/-- Errors built in `pkg/cmd` and in the library calls it makes. -/
inductive GoError where
  /-- An error made by `fmt.Errorf` or `errors.New` without a wrapped cause; `msg` is its text. -/
  | errorf (msg : Str)
  /-- The `*strconv.NumError` of `strconv.Atoi` for the input `num`: its text is
  `strconv.Atoi: parsing "num": invalid syntax`, or `value out of range` when `outOfRange`. -/
  | atoi (num : Str) (outOfRange : Bool)
  /-- The error `fmt.Errorf("found %s but line is malformed: %q", pkg, line)`. -/
  | malformedLine (pkg line : Str)
  /-- The error `fmt.Errorf("non 200 response: %d", status)`. -/
  | non200 (status : Nat)
  /-- The error `bufio.ErrTooLong` of a `bufio.Scanner`. -/
  | tooLong
  /-- An error reported by the network or by an external process. -/
  | external (msg : Str)
  /-- The error `fmt.Errorf("%w: %s", ErrPackageNotFound, pkg)`, which wraps the
  variable `ErrPackageNotFound`; its text is `package not found: pkg`. -/
  | packageNotFound (pkg : Str)
  /-- An error made by `fmt.Errorf("msg: %w", cause)`. -/
  | wrapped (msg : Str) (cause : GoError)
  deriving DecidableEq, Repr

deriving instance DecidableEq for Except

/-! ## The Go library functions used by `pkg/cmd` -/

/-- Go `unicode.IsSpace`: the code points with the Unicode White_Space property. -/
def isSpace (c : Char) : Bool :=
  let n := c.toNat
  (9 ≤ n && n ≤ 13) || n == 32 || n == 0x85 || n == 0xA0 || n == 0x1680 ||
  (0x2000 ≤ n && n ≤ 0x200A) || n == 0x2028 || n == 0x2029 || n == 0x202F ||
  n == 0x205F || n == 0x3000

/-- Go `strings.TrimSpace`: the string without its leading and trailing white space. -/
def TrimSpace (s : Str) : Str :=
  ((s.dropWhile isSpace).reverse.dropWhile isSpace).reverse

/-- The pieces of `s` between the characters that satisfy `p` (always at least one piece). -/
def splitWhere (p : Char → Bool) : Str → List Str
  | [] => [[]]
  | c :: cs =>
    if p c then [] :: splitWhere p cs
    else
      match splitWhere p cs with
      | [] => [[c]]
      | piece :: pieces => (c :: piece) :: pieces

/-- Go `strings.Fields`: the maximal runs of characters that are not white space. -/
def Fields (s : Str) : List Str :=
  (splitWhere isSpace s).filter (fun f => !f.isEmpty)

/-- Go `strings.Split(s, sep)` for a separator `sep` of one character. -/
def Split (s : Str) (sep : Char) : List Str :=
  splitWhere (fun c => c == sep) s

/-- Go `strings.HasPrefix`. -/
def HasPrefix (s pre : Str) : Bool :=
  pre.isPrefixOf s

/-- Go `strings.TrimPrefix`: `s` without the leading `pre`, or `s` itself. -/
def TrimPrefix (s pre : Str) : Str :=
  if HasPrefix s pre then s.drop pre.length else s

/-- Go `strings.Contains`. -/
def Contains : Str → Str → Bool
  | [], sub => sub.isEmpty
  | c :: cs, sub => HasPrefix (c :: cs) sub || Contains cs sub

/-- Go's `<` on strings: lexicographic on bytes, which for valid UTF-8 is
lexicographic on code points. -/
def strLess : Str → Str → Bool
  | [], [] => false
  | [], _ :: _ => true
  | _ :: _, [] => false
  | a :: as, b :: bs =>
    if a.toNat < b.toNat then true
    else if b.toNat < a.toNat then false
    else strLess as bs

/-- The number of bytes of `s` in UTF-8, Go's `len(s)`. -/
def byteLen (s : Str) : Nat :=
  (s.map Char.utf8Size).sum

/-- The largest value of Go's `int`. -/
def maxInt : Int := 2 ^ 63 - 1

/-- The smallest value of Go's `int`. -/
def minInt : Int := -(2 ^ 63)

/-- The value of an `int` computation: the mathematical result reduced to 64 bits. -/
def wrapInt (x : Int) : Int :=
  (x + 2 ^ 63) % 2 ^ 64 - 2 ^ 63

/-- The largest value of a `uint64`. -/
def maxUint64 : Nat := 2 ^ 64 - 1

/-- The loop of `strconv.ParseUint` in base 10 over the characters that remain, with the
value `acc` read so far: the value of the digits, or the failure at the first character
that is not a digit (`false`, invalid syntax) or at the first digit with which the value
exceeds a `uint64` (`true`, value out of range), whichever comes first. -/
def parseDigits (acc : Nat) : Str → Except Bool Nat
  | [] => .ok acc
  | c :: cs =>
    if 48 ≤ c.toNat ∧ c.toNat ≤ 57 then
      if maxUint64 < acc * 10 + (c.toNat - 48) then .error true
      else parseDigits (acc * 10 + (c.toNat - 48)) cs
    else .error false

/-- Go `strconv.Atoi`: an optional sign and one or more decimal digits, with a
value that fits `int`. The error is invalid syntax for an empty digit run and for a
character that is not a digit, and value out of range for a value that exceeds a
`uint64` before such a character, or the range of `int` at the end. -/
def Atoi (s : Str) : Except GoError Int :=
  let neg := s.head? == some '-'
  let body := if s.head? == some '-' ∨ s.head? == some '+' then s.tail else s
  if body.isEmpty then .error (.atoi s false)
  else
    match parseDigits 0 body with
    | .error outOfRange => .error (.atoi s outOfRange)
    | .ok n =>
      if neg then
        if (n : Int) ≤ 2 ^ 63 then .ok (-(n : Int)) else .error (.atoi s true)
      else
        if (n : Int) ≤ maxInt then .ok (n : Int) else .error (.atoi s true)

/-- Go's `%d` of an `int`. -/
def fmtInt (i : Int) : Str :=
  if i < 0 then '-' :: Nat.toDigits 10 i.natAbs else Nat.toDigits 10 i.natAbs

/-! ## `types.go` -/

/-- The struct `Dependency`. An absent YAML field is the empty string. -/
structure Dependency where
  Package : Str
  Version : Str
  Branch : Str
  deriving DecidableEq, Repr

/-- The struct `Config`. -/
structure Config where
  Dependencies : List Dependency
  deriving DecidableEq, Repr

/-! ## `config.go` -/

/-- The function `validateDependency`. -/
def validateDependency (dependency : Dependency) : Option GoError :=
  if dependency.Version ≠ [] ∧ dependency.Branch ≠ [] then
    some (.errorf ("dependency ".toList ++ dependency.Package ++
      ": cannot specify both version and branch".toList))
  else if dependency.Version = [] ∧ dependency.Branch = [] then
    some (.errorf ("dependency ".toList ++ dependency.Package ++
      ": must specify either version or branch".toList))
  else if dependency.Version ≠ [] ∧ TrimSpace dependency.Version = [] then
    some (.errorf ("dependency ".toList ++ dependency.Package ++
      ": version cannot be an empty string".toList))
  else if dependency.Branch ≠ [] ∧ TrimSpace dependency.Branch = [] then
    some (.errorf ("dependency ".toList ++ dependency.Package ++
      ": branch cannot be an empty string".toList))
  else none

/-! ## `generate.go` -/

/-- The function `hasSameMinorVersion`; both results of the Go function are kept. -/
def hasSameMinorVersion (v1 v2 : Str) : Bool × Option GoError :=
  let v1Parts := Split (TrimPrefix v1 "v".toList) '.'
  let v2Parts := Split (TrimPrefix v2 "v".toList) '.'
  if v1Parts.length < 2 ∨ v2Parts.length < 2 then
    (false, some (.errorf "invalid version format".toList))
  else
    match Atoi (v1Parts.getD 0 []), Atoi (v1Parts.getD 1 []),
          Atoi (v2Parts.getD 0 []), Atoi (v2Parts.getD 1 []) with
    | .ok major1, .ok minor1, .ok major2, .ok minor2 =>
      (decide (major1 = major2) && decide (minor1 = minor2), none)
    | _, _, _, _ => (false, some (.errorf "invalid version numbers".toList))

/-- The constant `minorCount` of `generateVersions`. -/
def minorCount : Nat := 4

/-- The constant `patchCount` of `generateVersions`. -/
def patchCount : Nat := 5

/-- The function `reverseSlice`: its loop swaps the ends inwards, which reverses the slice. -/
def reverseSlice (s : List Str) : List Str :=
  s.reverse

/-- The version `fmt.Sprintf("v%d.%d.%d", major, minor, patch)`. -/
def fmtVersion (major minor patch : Int) : Str :=
  "v".toList ++ fmtInt major ++ ".".toList ++ fmtInt minor ++ ".".toList ++ fmtInt patch

/-- The function `generateVersions`. The two loops run `i` over `0 .. minorCount - 1` and
`p` over `0 .. patchCount`; `startMinor + i` is an `int` addition. -/
def generateVersions (startMajorS startMinorS : Str) : Except GoError (List Str) :=
  match Atoi startMajorS with
  | .error e => .error e
  | .ok startMajor =>
    match Atoi startMinorS with
    | .error e => .error e
    | .ok startMinor =>
      .ok (reverseSlice ((List.range minorCount).flatMap fun i =>
        (List.range (patchCount + 1)).map fun p =>
          fmtVersion startMajor (wrapInt (startMinor + (i : Int))) (p : Int)))

/-- The function `generateCandidateSdkVersions`. -/
def generateCandidateSdkVersions (currentVersion : Str) : Except GoError (List Str) :=
  let parts := Split (TrimPrefix currentVersion "v".toList) '.'
  if parts.length ≠ 3 then .error (.errorf "invalid operator-sdk version format".toList)
  else generateVersions (parts.getD 0 []) (parts.getD 1 [])

/-! ## `go_mod.go` -/

/-- What `http.Get` gives for a URL: a transport error, or a response with its status
code and its whole body. `eofWithData` tells how the reader of the body ends: together
with the last bytes (as `net/http` does for a body with a `Content-Length`), or on a
read of its own that returns no byte (as for a chunked body). -/
inductive HttpResult where
  | failed (e : GoError)
  | response (status : Nat) (body : Str) (eofWithData : Bool)
  deriving DecidableEq, Repr

/-- The constant `bufio.MaxScanTokenSize`, the size of the largest buffer of a `bufio.Scanner`. -/
def maxScanTokenSize : Nat := 64 * 1024

/-- The lines of a text: the pieces between line feeds, without the empty piece after a
final line feed (`bufio.ScanLines` before it drops the carriage return). -/
def bodyLines (body : Str) : List Str :=
  let pieces := splitWhere (fun c => c == '\n') body
  if pieces.getLast? = some [] then pieces.dropLast else pieces

/-- The function `dropCR` of `bufio`: the line without one final carriage return. -/
def dropCR (line : Str) : Str :=
  if line.getLast? = some '\r' then line.dropLast else line

/-- The tokens that a `bufio.Scanner` with `bufio.ScanLines` yields on the pieces between
the line feeds of a text, and whether `scanner.Err()` is `bufio.ErrTooLong` afterwards.
A piece followed by a line feed is a token when the piece and the line feed fit the
buffer of `maxScanTokenSize` bytes. The last piece has no line feed after it: when empty
it is no token; otherwise it is a token when it is shorter than the buffer, and also
when it fills the buffer exactly and the reader has reported the end of the text with
its last bytes, so that the scanner knows that nothing follows. Scanning stops with
`bufio.ErrTooLong` at the first piece that is no token for its length. -/
def scanPieces (eofWithData : Bool) : List Str → List Str × Bool
  | [] => ([], false)
  | line :: rest =>
    match rest with
    | [] =>
      if line.isEmpty then ([], false)
      else if byteLen line < maxScanTokenSize ∨
          (eofWithData = true ∧ byteLen line = maxScanTokenSize) then ([dropCR line], false)
      else ([], true)
    | _ :: _ =>
      if byteLen line < maxScanTokenSize then
        (dropCR line :: (scanPieces eofWithData rest).1, (scanPieces eofWithData rest).2)
      else ([], true)

/-- The tokens that a `bufio.Scanner` with `bufio.ScanLines` yields on `body`, and whether
`scanner.Err()` is `bufio.ErrTooLong` afterwards. -/
def scanLines (body : Str) (eofWithData : Bool) : List Str × Bool :=
  scanPieces eofWithData (splitWhere (fun c => c == '\n') body)

/-- The loop `for i, val := range fields` of `GetKubernetesVersion`: the field after the
first field equal to `pkg`, if there is one. -/
def fieldAfter (pkg : Str) : List Str → Option Str
  | [] => none
  | val :: rest =>
    if val = pkg then rest.head?
    else fieldAfter pkg rest

/-- The loop `for scanner.Scan()` of `GetKubernetesVersion` over the tokens that remain,
with the value of `inRequireBlock`: the result that the loop returns, or `none` when it
ends without returning. -/
def scanLoop (pkg : Str) : Bool → List Str → Option (Except GoError Str)
  | _, [] => none
  | inRequireBlock, text :: rest =>
    let line := TrimSpace text
    if HasPrefix line "require (".toList then scanLoop pkg true rest
    else if inRequireBlock && line == ")".toList then scanLoop pkg false rest
    else if HasPrefix line pkg then
      match Fields line with
      | _ :: version :: _ => some (.ok version)
      | _ => some (.error (.malformedLine pkg line))
    else if HasPrefix line "require".toList && Contains line pkg then
      match fieldAfter pkg (Fields line) with
      | some version => some (.ok version)
      | none => scanLoop pkg inRequireBlock rest
    else scanLoop pkg inRequireBlock rest

/-- The path of the URL that `GetKubernetesVersion` requests from `raw.githubusercontent.com`. -/
def goModPath (repo branch : Str) : Str :=
  repo ++ "/".toList ++ branch ++ "/go.mod".toList

/-- The part of `GetKubernetesVersion` after the status check: the scan of the body. -/
def scanGoMod (body pkg : Str) (eofWithData : Bool) : Except GoError Str :=
  match scanLoop pkg false (scanLines body eofWithData).1 with
  | some result => result
  | none =>
    if (scanLines body eofWithData).2 then .error (.wrapped "scanner error".toList .tooLong)
    else .error (.errorf (pkg ++ " not found in go.mod".toList))

/-- The function `GetKubernetesVersion`; `get` is `http.Get` on `raw.githubusercontent.com`,
as a function of the path of the URL. -/
def GetKubernetesVersion (get : Str → HttpResult) (repo branch pkg : Str) : Except GoError Str :=
  match get (goModPath repo branch) with
  | .failed e => .error (.wrapped "failed to fetch go.mod".toList e)
  | .response status body eofWithData =>
    if status ≠ 200 then .error (.non200 status)
    else scanGoMod body pkg eofWithData

/-! ## `generate.go`, the part that uses the network

The functions below return, next to their result, the paths that they requested, in order. -/

/-- The loop `for _, dep := range dependencies` of `buildDependencyConfig`. -/
def fetchDependencies (get : Str → HttpResult) (repo branch : Str) :
    List Str → Except GoError (List Dependency) × List Str
  | [] => (.ok [], [])
  | dep :: rest =>
    match GetKubernetesVersion get repo branch dep with
    | .error e =>
      (.error (.wrapped ("failed to get version for ".toList ++ dep) e), [goModPath repo branch])
    | .ok version =>
      let next := fetchDependencies get repo branch rest
      (match next.1 with
       | .error e => .error e
       | .ok deps => .ok (⟨dep, version, []⟩ :: deps),
       goModPath repo branch :: next.2)

/-- The slice `dependencies` of `buildDependencyConfig`. -/
def toolPackages : List Str :=
  ["sigs.k8s.io/controller-runtime".toList, "github.com/operator-framework/api".toList,
   "github.com/operator-framework/operator-registry".toList, "sigs.k8s.io/controller-tools".toList]

/-- The slice `openshiftPackages` of `buildDependencyConfig`. -/
def openshiftPackages : List Str :=
  ["github.com/openshift/api".toList, "github.com/openshift/library-go".toList]

/-- The function `buildDependencyConfig`. -/
def buildDependencyConfig (get : Str → HttpResult) (repo branch openshiftVersion : Str) :
    Except GoError Config × List Str :=
  let fetched := fetchDependencies get repo branch toolPackages
  (match fetched.1 with
   | .error e => .error e
   | .ok deps =>
     .ok ⟨deps ++ openshiftPackages.map fun opPkg =>
       ⟨opPkg, [], "release-".toList ++ openshiftVersion⟩⟩,
   fetched.2)

/-- The repository that `findMatchingOperatorSDKConfig` reads. -/
def sdkRepo : Str := "operator-framework/operator-sdk".toList

/-- The loop `for _, version := range sdkVersions` of `findMatchingOperatorSDKConfig`,
with the statement after it. -/
def matchLoop (get : Str → HttpResult) (k8sVersionUsedByOpenshift openshiftVersion : Str) :
    List Str → Except GoError Config × List Str
  | [] =>
    (.error (.errorf ("no matching operator-sdk version found for Kubernetes ".toList ++
      k8sVersionUsedByOpenshift)), [])
  | version :: rest =>
    match GetKubernetesVersion get sdkRepo version "k8s.io/api".toList with
    | .error _ =>
      let next := matchLoop get k8sVersionUsedByOpenshift openshiftVersion rest
      (next.1, goModPath sdkRepo version :: next.2)
    | .ok k8sVersionUsedBySdk =>
      if (hasSameMinorVersion k8sVersionUsedBySdk k8sVersionUsedByOpenshift).1 then
        let built := buildDependencyConfig get sdkRepo version openshiftVersion
        (match built.1 with
         | .error e => .error (.wrapped "error building config".toList e)
         | .ok config => .ok config,
         goModPath sdkRepo version :: built.2)
      else
        let next := matchLoop get k8sVersionUsedByOpenshift openshiftVersion rest
        (next.1, goModPath sdkRepo version :: next.2)

/-- The function `findMatchingOperatorSDKConfig`. -/
def findMatchingOperatorSDKConfig (get : Str → HttpResult)
    (k8sVersionUsedByOpenshift currentOperatorSdkVersion openshiftVersion : Str) :
    Except GoError Config × List Str :=
  match generateCandidateSdkVersions currentOperatorSdkVersion with
  | .error e => (.error e, [])
  | .ok sdkVersions => matchLoop get k8sVersionUsedByOpenshift openshiftVersion sdkVersions

/-! ## `git.go` -/

/-- The result of a call that can end in a run-time panic. -/
inductive Outcome (α : Type) where
  /-- The call returns the value with a `nil` error. -/
  | ok (value : α)
  /-- The call returns the error. -/
  | err (e : GoError)
  /-- The call panics. -/
  | panic
  /-- The call returns a string that is not valid UTF-8, which a `Str` cannot hold. -/
  | notText
  deriving DecidableEq, Repr

/-- Go's `s[:n]`, which counts bytes: it panics when `s` has fewer than `n` bytes, and
cuts a character of several bytes when the `n`-th byte is inside one. -/
def sliceTo : Str → Nat → Outcome Str
  | _, 0 => .ok []
  | [], _ + 1 => .panic
  | c :: cs, n + 1 =>
    if c.utf8Size ≤ n + 1 then
      match sliceTo cs (n + 1 - c.utf8Size) with
      | .ok t => .ok (c :: t)
      | other => other
    else .notText

/-- What the request for the commit gives in `getVersionWithCommitHashForBranch`. -/
inductive CommitResponse where
  /-- The error of `http.Get`. -/
  | failed (e : GoError)
  /-- A response with a status other than 200: `resp.Status` and the body. -/
  | badStatus (status body : Str)
  /-- A response with status 200 and a body that `json` does not decode. -/
  | undecodable (e : GoError)
  /-- A response with status 200 that decodes; `timestamp` is
  `commit.Commit.Committer.Date.UTC().Format("20060102150405")`. -/
  | commit (timestamp : Str)
  deriving DecidableEq, Repr

/-- The version `fmt.Sprintf("v0.0.0-%s-%s", timestamp, hash)`. -/
def pseudoVersion (timestamp hash : Str) : Str :=
  "v0.0.0-".toList ++ timestamp ++ "-".toList ++ hash

/-- The function `getVersionWithCommitHashForBranch`; `lsRemote url branch` is the result
of `CombinedOutput` of `git ls-remote url branch`, and `getCommit` is the request to
`api.github.com`, as a function of the path of the URL. -/
def getVersionWithCommitHashForBranch (lsRemote : Str → Str → Str × Option GoError)
    (getCommit : Str → CommitResponse) (repo branch : Str) : Outcome Str :=
  let repoURL := "https://".toList ++ repo ++ ".git".toList
  match lsRemote repoURL branch with
  | (_, some e) =>
    .err (.wrapped ("error fetching commit hash for branch ".toList ++ branch) e)
  | (output, none) =>
    match Fields output with
    | [] => .err (.errorf ("no commit found for branch ".toList ++ branch))
    | commitHash :: _ =>
      let apiRepoPath := TrimPrefix repo "github.com/".toList
      match getCommit ("repos/".toList ++ apiRepoPath ++ "/commits/".toList ++ commitHash) with
      | .failed e => .err (.wrapped "failed to fetch commit info".toList e)
      | .badStatus status body =>
        .err (.errorf ("GitHub API returned status: ".toList ++ status ++ " - ".toList ++ body))
      | .undecodable e => .err (.wrapped "failed to decode GitHub API response".toList e)
      | .commit timestamp =>
        match sliceTo commitHash 12 with
        | .ok hash => .ok (pseudoVersion timestamp hash)
        | .err e => .err e
        | .panic => .panic
        | .notText => .notText

/-! ## `go_mod.go` and `upgrade.go`: the commands run in the module directory -/

/-- The struct `Package`. -/
structure Package where
  Path : Str
  Version : Str
  deriving DecidableEq, Repr

/-- The struct `Module`. -/
structure Module where
  Require : List Package
  deriving DecidableEq, Repr

/-- The variable `goCommandFunc` and the decoder of its output, over the states `σ` of
the module directory. -/
structure GoCommand (σ : Type) where
  /-- The call `goCommandFunc(false, dir, args...).Output()`. -/
  Output : Str → List Str → σ → (Str × Option GoError) × σ
  /-- The call `goCommandFunc(true, dir, args...).Run()`. -/
  Run : Str → List Str → σ → Option GoError × σ
  /-- The call `json.Unmarshal(output, &module)`. -/
  Unmarshal : Str → Except GoError Module

/-- The test `errors.Is(err, ErrPackageNotFound)`. -/
def isPackageNotFound : GoError → Bool
  | .packageNotFound _ => true
  | .wrapped _ cause => isPackageNotFound cause
  | _ => false

/-- The loop `for _, pkg := range module.Require` of `getPackageVersion`. -/
def findRequire (packageName : Str) : List Package → Option Str
  | [] => none
  | pkg :: rest => if pkg.Path = packageName then some pkg.Version else findRequire packageName rest

/-- The function `getPackageVersion`. -/
def getPackageVersion {σ : Type} (go : GoCommand σ) (targetDir packageName : Str) (s : σ) :
    Except GoError Str × σ :=
  match go.Output targetDir ["mod".toList, "edit".toList, "-json".toList] s with
  | ((_, some e), s1) => (.error (.wrapped "failed to run 'go mod edit'".toList e), s1)
  | ((output, none), s1) =>
    match go.Unmarshal output with
    | .error e => (.error (.wrapped "failed to parse go.mod JSON".toList e), s1)
    | .ok module =>
      match findRequire packageName module.Require with
      | some version => (.ok version, s1)
      | none => (.error (.packageNotFound packageName), s1)

/-- The function `upgradePackage`: its error, the arguments of the `go` commands that it
ran with `Run`, in order, and the state of the module directory afterwards. -/
def upgradePackage {σ : Type} (go : GoCommand σ) (projectPath packageName targetVersion : Str)
    (s : σ) : Option GoError × List (List Str) × σ :=
  match getPackageVersion go projectPath packageName s with
  | (.error e, s1) => if isPackageNotFound e then (none, [], s1) else (some e, [], s1)
  | (.ok currentVersion, s1) =>
    if strLess currentVersion targetVersion then
      let get := ["get".toList, packageName ++ "@".toList ++ targetVersion]
      match go.Run projectPath get s1 with
      | (some e, s2) =>
        (some (.wrapped ("error upgrading dependency ".toList ++ packageName) e), [get], s2)
      | (none, s2) =>
        let tidy := ["mod".toList, "tidy".toList]
        match go.Run projectPath tidy s2 with
        | (some e, s3) => (some (.wrapped "error running go mod tidy".toList e), [get, tidy], s3)
        | (none, s3) => (none, [get, tidy], s3)
    else (none, [], s1)

/-! ## `config.go` and `upgrade.go`: the configuration file and `Upgrade` -/

/-- The loop `for _, dep := range config.Dependencies` of `parseConfig`: the first error
of `validateDependency`. -/
def validateAll : List Dependency → Option GoError
  | [] => none
  | dep :: rest =>
    match validateDependency dep with
    | some e => some e
    | none => validateAll rest

/-- The function `parseConfig`; `readConfig path` is what opening the file and decoding
its YAML give. -/
def parseConfig (readConfig : Str → Except GoError Config) (configPath : Str) :
    Except GoError Config :=
  match readConfig configPath with
  | .error e => .error e
  | .ok config =>
    match validateAll config.Dependencies with
    | some e => .error e
    | none => .ok config

/-- The body of the loop of `Upgrade` for one dependency: how it ends (`ok` when the loop
goes on), the arguments of the `go` commands that it ran with `Run`, and the state of
the module directory afterwards. -/
def processDependency {σ : Type} (go : GoCommand σ)
    (lsRemote : Str → Str → Str × Option GoError) (getCommit : Str → CommitResponse)
    (projectPath : Str) (dependency : Dependency) (s : σ) :
    Outcome Unit × List (List Str) × σ :=
  let first :=
    if dependency.Version ≠ [] then
      upgradePackage go projectPath dependency.Package dependency.Version s
    else (none, [], s)
  match first with
  | (some e, log1, s1) => (.err e, log1, s1)
  | (none, log1, s1) =>
    if dependency.Branch ≠ [] then
      match getVersionWithCommitHashForBranch lsRemote getCommit dependency.Package
          dependency.Branch with
      | .err e => (.err e, log1, s1)
      | .panic => (.panic, log1, s1)
      | .notText => (.notText, log1, s1)
      | .ok targetVersion =>
        match upgradePackage go projectPath dependency.Package targetVersion s1 with
        | (some e, log2, s2) => (.err e, log1 ++ log2, s2)
        | (none, log2, s2) => (.ok (), log1 ++ log2, s2)
    else (.ok (), log1, s1)

/-- The loop `for _, dependency := range config.Dependencies` of `Upgrade`, with the
`return nil` after it. -/
def upgradeLoop {σ : Type} (go : GoCommand σ)
    (lsRemote : Str → Str → Str × Option GoError) (getCommit : Str → CommitResponse)
    (projectPath : Str) : List Dependency → σ → Outcome Unit × List (List Str) × σ
  | [], s => (.ok (), [], s)
  | dependency :: rest, s =>
    match processDependency go lsRemote getCommit projectPath dependency s with
    | (.ok (), log, s1) =>
      let next := upgradeLoop go lsRemote getCommit projectPath rest s1
      (next.1, log ++ next.2.1, next.2.2)
    | (stop, log, s1) => (stop, log, s1)

/-- The function `Upgrade`. -/
def Upgrade {σ : Type} (readConfig : Str → Except GoError Config) (go : GoCommand σ)
    (lsRemote : Str → Str → Str × Option GoError) (getCommit : Str → CommitResponse)
    (configPath projectPath : Str) (s : σ) : Outcome Unit × List (List Str) × σ :=
  match parseConfig readConfig configPath with
  | .error e => (.err e, [], s)
  | .ok config => upgradeLoop go lsRemote getCommit projectPath config.Dependencies s

/-! ## Spec-side notions -/

/-- A string is non-blank when it is not empty and not made of white space only. -/
def nonBlank (s : Str) : Prop :=
  s ≠ [] ∧ s.all isSpace = false

/-- A version is rejected by `hasSameMinorVersion` when, after one leading `v` is removed,
it has fewer than two dot-separated components, or its first or its second component
does not parse as an integer. -/
def badMajorMinor (v : Str) : Prop :=
  let parts := Split (TrimPrefix v "v".toList) '.'
  parts.length < 2 ∨ (∃ e, Atoi (parts.getD 0 []) = .error e) ∨
    (∃ e, Atoi (parts.getD 1 []) = .error e)

/-- On `line`, `version` is the field that immediately follows a field equal to `pkg`. -/
def fieldFollows (pkg version line : Str) : Prop :=
  (pkg, version) ∈ (Fields line).zip (Fields line).tail

/-- The trimmed line `line` declares `pkg` in the sense of the scan: it starts with `pkg`,
or it starts with `require` and has `pkg` as a field followed by another field. -/
def declares (pkg line : Str) : Prop :=
  HasPrefix line pkg = true ∨
    (HasPrefix line "require".toList = true ∧ ∃ version, fieldFollows pkg version line)

instance (pkg version line : Str) : Decidable (fieldFollows pkg version line) := by
  unfold fieldFollows
  infer_instance

instance (pkg line : Str) : Decidable (declares pkg line) :=
  decidable_of_iff
    (HasPrefix line pkg = true ∨ (HasPrefix line "require".toList = true ∧
      ((Fields line).zip (Fields line).tail).any (fun q => q.1 == pkg) = true))
    (by
      unfold declares fieldFollows
      simp only [List.any_eq_true, beq_iff_eq]
      constructor
      · rintro (h | ⟨h, ⟨q1, q2⟩, hq, rfl⟩)
        · exact Or.inl h
        · exact Or.inr ⟨h, q2, hq⟩
      · rintro (h | ⟨h, v, hv⟩)
        · exact Or.inl h
        · exact Or.inr ⟨h, (pkg, v), hv, rfl⟩)

/-- The answer that serves `body` with status 200 for every path, the end of the body
reported with its last bytes. -/
def serve (body : Str) : Str → HttpResult :=
  fun _ => .response 200 body true

/-- The candidate `version` matches: its `go.mod` is fetched, the scan finds a version of
`k8s.io/api`, and `hasSameMinorVersion` returns true for it and the version of the
platform. -/
def accepts (get : Str → HttpResult) (k8sVersionUsedByOpenshift version : Str) : Prop :=
  ∃ k8sVersionUsedBySdk,
    GetKubernetesVersion get sdkRepo version "k8s.io/api".toList = .ok k8sVersionUsedBySdk ∧
    (hasSameMinorVersion k8sVersionUsedBySdk k8sVersionUsedByOpenshift).1 = true

/-- A `go.mod` that requires `k8s.io/api` at `v0.31.0` and the four tool packages. -/
def sampleGoMod : Str :=
  "module github.com/operator-framework/operator-sdk\n\nrequire (\n".toList ++
  "\tgithub.com/operator-framework/api v0.27.0\n".toList ++
  "\tgithub.com/operator-framework/operator-registry v1.49.0\n".toList ++
  "\tk8s.io/api v0.31.0\n".toList ++
  "\tsigs.k8s.io/controller-runtime v0.19.7\n".toList ++
  "\tsigs.k8s.io/controller-tools v0.16.5\n)\n".toList

/-- A server that has no tag `v1.42.5` of the SDK and serves `sampleGoMod` for every
other path. -/
def sampleGet : Str → HttpResult :=
  fun path =>
    if path = goModPath sdkRepo "v1.42.5".toList then .response 404 [] true
    else .response 200 sampleGoMod true

/-- A server that answers every request with status 404. -/
def notServed : Str → HttpResult :=
  fun _ => .response 404 [] true

/-- A `go` command for examples, over the list of the invocations made so far: the module
requires `require`, `go get` ends with `getError` and `go mod tidy` with `tidyError`. -/
def sampleGo (require : List Package) (getError tidyError : Option GoError) :
    GoCommand (List (List Str)) where
  Output := fun _ args s => (([], none), s ++ [args])
  Run := fun _ args s =>
    (if args.head? = some "get".toList then getError else tidyError, s ++ [args])
  Unmarshal := fun _ => .ok ⟨require⟩

/-- The arguments of `go get` for a package and a version. -/
def getArgs (packageName targetVersion : Str) : List Str :=
  ["get".toList, packageName ++ "@".toList ++ targetVersion]

/-- The arguments of `go mod tidy`. -/
def tidyArgs : List Str :=
  ["mod".toList, "tidy".toList]

/-- The dependencies of a list are processed one after the other, each by the body of
the loop of `Upgrade` and each without error: from the state `s` of the module directory,
with the commands `log`, to the state that the last one leaves. -/
inductive ProcessedInOrder {σ : Type} (go : GoCommand σ)
    (lsRemote : Str → Str → Str × Option GoError) (getCommit : Str → CommitResponse)
    (projectPath : Str) : List Dependency → σ → List (List Str) → σ → Prop where
  | nil (s : σ) : ProcessedInOrder go lsRemote getCommit projectPath [] s [] s
  | cons (d : Dependency) (rest : List Dependency) (s s1 s2 : σ)
      (log logRest : List (List Str))
      (hfirst : processDependency go lsRemote getCommit projectPath d s = (.ok (), log, s1))
      (hrest : ProcessedInOrder go lsRemote getCommit projectPath rest s1 logRest s2) :
      ProcessedInOrder go lsRemote getCommit projectPath (d :: rest) s (log ++ logRest) s2

/-- An `error` result as the way a step of `Upgrade` ends. -/
def toOutcome : Option GoError → Outcome Unit
  | none => .ok ()
  | some e => .err e

/-- A configuration for examples: a package that is up to date, a branch whose
resolution leads to `go get`, and a package that is out of date. -/
def sampleConfig : Config :=
  ⟨[⟨"sigs.k8s.io/controller-runtime".toList, "v0.19.3".toList, []⟩,
    ⟨"github.com/openshift/api".toList, [], "release-4.18".toList⟩,
    ⟨"sigs.k8s.io/controller-tools".toList, "v0.16.5".toList, []⟩]⟩

/-- The module of the examples: what it requires. -/
def sampleRequire : List Package :=
  [⟨"sigs.k8s.io/controller-runtime".toList, "v0.19.3".toList⟩,
   ⟨"github.com/openshift/api".toList, "release-4.17".toList⟩,
   ⟨"sigs.k8s.io/controller-tools".toList, "v0.16.0".toList⟩]

/-- A `git ls-remote` for examples. -/
def sampleLsRemote : Str → Str → Str × Option GoError :=
  fun _ _ => ("d6c84c55a1240a8ffb2ba9bd2c9d0b0d9bbc4bd1\trefs/heads/release-4.18\n".toList, none)

/-- A commit request for examples. -/
def sampleGetCommit : Str → CommitResponse :=
  fun _ => .commit "20250410062700".toList

/-! ## Lemmas on the library functions -/

theorem TrimSpace_eq_nil_iff (s : Str) : TrimSpace s = [] ↔ s.all isSpace = true := by
  unfold TrimSpace
  rw [List.reverse_eq_nil_iff, List.dropWhile_eq_nil_iff, List.all_eq_true]
  constructor
  · intro h
    by_cases hd : s.dropWhile isSpace = []
    · exact List.dropWhile_eq_nil_iff.mp hd
    · have h1 := List.head_dropWhile_not isSpace s hd
      have h2 := h _ (List.mem_reverse.mpr (List.head_mem hd))
      rw [h1] at h2
      exact absurd h2 (by decide)
  · intro h x hx
    exact h x ((List.dropWhile_sublist isSpace).subset (List.mem_reverse.mp hx))

theorem nonBlank_iff (s : Str) : nonBlank s ↔ s ≠ [] ∧ TrimSpace s ≠ [] := by
  unfold nonBlank
  rw [Ne, Ne, TrimSpace_eq_nil_iff]
  simp

/-! ## `validateDependency` -/

/-- C1, as amended: `validateDependency` returns no error exactly when one of `Version` and
`Branch` is the empty string and the other one is non-blank. -/
theorem C1_validateDependency_accepts_iff (d : Dependency) :
    validateDependency d = none ↔
      (nonBlank d.Version ∧ d.Branch = []) ∨ (d.Version = [] ∧ nonBlank d.Branch) := by
  simp only [nonBlank_iff]
  unfold validateDependency
  by_cases hv : d.Version = [] <;> by_cases hb : d.Branch = [] <;>
    by_cases tv : TrimSpace d.Version = [] <;> by_cases tb : TrimSpace d.Branch = [] <;>
    simp [hv, hb, tv, tb]

/-- C1, as stated, fails: a version next to a branch of one space is rejected, although
exactly one of the two is non-blank. -/
theorem C1_counterexample :
    validateDependency ⟨"package3".toList, "v1.0.0".toList, " ".toList⟩ =
        some (.errorf "dependency package3: cannot specify both version and branch".toList) ∧
      nonBlank "v1.0.0".toList ∧ ¬ nonBlank " ".toList := by
  refine ⟨by decide, ⟨by decide, by decide⟩, ?_⟩
  intro h
  exact absurd h.2 (by decide)

/-! ## `hasSameMinorVersion` -/

/-- The result of `hasSameMinorVersion` when both versions have two components or more. -/
theorem hasSameMinorVersion_of_parts (v1 v2 a1 b1 a2 b2 : Str) (r1 r2 : List Str)
    (h1 : Split (TrimPrefix v1 "v".toList) '.' = a1 :: b1 :: r1)
    (h2 : Split (TrimPrefix v2 "v".toList) '.' = a2 :: b2 :: r2) :
    hasSameMinorVersion v1 v2 =
      match Atoi a1, Atoi b1, Atoi a2, Atoi b2 with
      | .ok major1, .ok minor1, .ok major2, .ok minor2 =>
        (decide (major1 = major2) && decide (minor1 = minor2), none)
      | _, _, _, _ => (false, some (.errorf "invalid version numbers".toList)) := by
  unfold hasSameMinorVersion
  simp only [h1, h2]
  simp

/-- C2: when the first two components of both versions parse as integers,
`hasSameMinorVersion` returns no error, and it returns true exactly when the two major
numbers are equal and the two minor numbers are equal, whatever the later components
are; `v1.2.3` and `v1.2.9` give true, `v1.2.3` and `v1.3.0` give false. -/
theorem C2_hasSameMinorVersion_major_minor :
    (∀ (v1 v2 a1 b1 a2 b2 : Str) (r1 r2 : List Str) (major1 minor1 major2 minor2 : Int),
      Split (TrimPrefix v1 "v".toList) '.' = a1 :: b1 :: r1 →
      Split (TrimPrefix v2 "v".toList) '.' = a2 :: b2 :: r2 →
      Atoi a1 = .ok major1 → Atoi b1 = .ok minor1 →
      Atoi a2 = .ok major2 → Atoi b2 = .ok minor2 →
      hasSameMinorVersion v1 v2 = (decide (major1 = major2 ∧ minor1 = minor2), none)) ∧
    hasSameMinorVersion "v1.2.3".toList "v1.2.9".toList = (true, none) ∧
    hasSameMinorVersion "v1.2.3".toList "v1.3.0".toList = (false, none) := by
  refine ⟨?_, by decide, by decide⟩
  intro v1 v2 a1 b1 a2 b2 r1 r2 major1 minor1 major2 minor2 h1 h2 hM1 hm1 hM2 hm2
  rw [hasSameMinorVersion_of_parts v1 v2 a1 b1 a2 b2 r1 r2 h1 h2, hM1, hm1, hM2, hm2]
  simp [Bool.decide_and]

/-- C2 at `v1.2.3` and `v1.2.9`, whose components are read on the way. -/
theorem C2_witness :
    hasSameMinorVersion "v1.2.3".toList "v1.2.9".toList =
      (decide ((1 : Int) = 1 ∧ (2 : Int) = 2), none) :=
  C2_hasSameMinorVersion_major_minor.1 "v1.2.3".toList "v1.2.9".toList
    "1".toList "2".toList "1".toList "2".toList ["3".toList] ["9".toList] 1 2 1 2
    (by decide) (by decide) (by decide) (by decide) (by decide) (by decide)

theorem Atoi_ok_or_error (s : Str) : (∃ n, Atoi s = .ok n) ∨ (∃ e, Atoi s = .error e) := by
  cases h : Atoi s with
  | ok n => exact Or.inl ⟨n, rfl⟩
  | error e => exact Or.inr ⟨e, rfl⟩

/-- C3, as amended: `hasSameMinorVersion` fails, with one of its two format errors and the
value false, exactly when one of the two versions has fewer than two dot-separated
components or a first or second component that does not parse as an integer;
`hasSameMinorVersion("1", "2.0")` fails. -/
theorem C3_hasSameMinorVersion_fails_iff :
    (∀ v1 v2 : Str,
      ((hasSameMinorVersion v1 v2).2 ≠ none ↔ badMajorMinor v1 ∨ badMajorMinor v2) ∧
      ((hasSameMinorVersion v1 v2).2 ≠ none →
        hasSameMinorVersion v1 v2 = (false, some (.errorf "invalid version format".toList)) ∨
        hasSameMinorVersion v1 v2 = (false, some (.errorf "invalid version numbers".toList)))) ∧
    hasSameMinorVersion "1".toList "2.0".toList =
      (false, some (.errorf "invalid version format".toList)) := by
  refine ⟨?_, by decide⟩
  intro v1 v2
  unfold badMajorMinor hasSameMinorVersion
  generalize Split (TrimPrefix v1 "v".toList) '.' = p1
  generalize Split (TrimPrefix v2 "v".toList) '.' = p2
  rcases p1 with _ | ⟨a1, _ | ⟨b1, r1⟩⟩ <;> rcases p2 with _ | ⟨a2, _ | ⟨b2, r2⟩⟩ <;> simp
  generalize Atoi a1 = x1
  generalize Atoi b1 = y1
  generalize Atoi a2 = x2
  generalize Atoi b2 = y2
  have hlen : ¬ (r1.length + 1 + 1 < 2 ∨ r2.length + 1 + 1 < 2) := by omega
  cases x1 <;> cases y1 <;> cases x2 <;> cases y2 <;> simp [hlen]

/-- C3, as stated, fails: `v1.2.x` has the component `x`, which is not numeric, and
`hasSameMinorVersion` returns true for it without an error. -/
theorem C3_counterexample :
    hasSameMinorVersion "v1.2.x".toList "v1.2.3".toList = (true, none) ∧
      Split (TrimPrefix "v1.2.x".toList "v".toList) '.' = ["1".toList, "2".toList, "x".toList] ∧
      Atoi "x".toList = .error (.atoi "x".toList false) := by
  decide

/-- C3 at `1` and `2.0`: the first version has one component. -/
theorem C3_witness : (hasSameMinorVersion "1".toList "2.0".toList).2 ≠ none :=
  ((C3_hasSameMinorVersion_fails_iff.1 "1".toList "2.0".toList).1).mpr
    (Or.inl (Or.inl (by decide)))

/-! ## `generateVersions` -/

theorem Atoi_range (s : Str) (n : Int) (h : Atoi s = .ok n) : minInt ≤ n ∧ n ≤ maxInt := by
  revert h
  unfold Atoi minInt maxInt
  simp only []
  generalize (if s.head? == some '-' ∨ s.head? == some '+' then s.tail else s) = body
  generalize (s.head? == some '-') = neg
  intro h
  by_cases h0 : body.isEmpty = true
  · simp [h0] at h
  · cases hp : parseDigits 0 body with
    | error b => simp [h0, hp] at h
    | ok k =>
      simp only [h0, hp] at h
      cases neg <;> simp at h <;> split at h <;> simp at h <;> subst h <;>
        norm_num <;> omega

theorem wrapInt_of_range (x : Int) (h1 : minInt ≤ x) (h2 : x ≤ maxInt) : wrapInt x = x := by
  unfold wrapInt
  unfold minInt at h1
  unfold maxInt at h2
  omega

/-- The list that `generateVersions` returns when no minor overflows. -/
theorem generateVersions_of_parsed (startMajorS startMinorS : Str) (major minor : Int)
    (hM : Atoi startMajorS = .ok major) (hm : Atoi startMinorS = .ok minor)
    (hfit : minor + 3 ≤ maxInt) :
    generateVersions startMajorS startMinorS = .ok
      [fmtVersion major (minor + 3) 5, fmtVersion major (minor + 3) 4,
       fmtVersion major (minor + 3) 3, fmtVersion major (minor + 3) 2,
       fmtVersion major (minor + 3) 1, fmtVersion major (minor + 3) 0,
       fmtVersion major (minor + 2) 5, fmtVersion major (minor + 2) 4,
       fmtVersion major (minor + 2) 3, fmtVersion major (minor + 2) 2,
       fmtVersion major (minor + 2) 1, fmtVersion major (minor + 2) 0,
       fmtVersion major (minor + 1) 5, fmtVersion major (minor + 1) 4,
       fmtVersion major (minor + 1) 3, fmtVersion major (minor + 1) 2,
       fmtVersion major (minor + 1) 1, fmtVersion major (minor + 1) 0,
       fmtVersion major minor 5, fmtVersion major minor 4,
       fmtVersion major minor 3, fmtVersion major minor 2,
       fmtVersion major minor 1, fmtVersion major minor 0] := by
  have hr := Atoi_range _ _ hm
  have w0 : wrapInt (minor + ((0 : Nat) : Int)) = minor :=
    by rw [wrapInt_of_range _ (by simp; omega) (by simp; omega)]; simp
  have w1 : wrapInt (minor + ((1 : Nat) : Int)) = minor + 1 :=
    by rw [wrapInt_of_range _ (by simp; omega) (by simp; omega)]; simp
  have w2 : wrapInt (minor + ((2 : Nat) : Int)) = minor + 2 :=
    by rw [wrapInt_of_range _ (by simp; omega) (by simp; omega)]; simp
  have w3 : wrapInt (minor + ((3 : Nat) : Int)) = minor + 3 :=
    by rw [wrapInt_of_range _ (by simp; omega) (by simp; omega)]; simp
  have r4 : List.range minorCount = [0, 1, 2, 3] := by decide
  have r6 : List.range (patchCount + 1) = [0, 1, 2, 3, 4, 5] := by decide
  unfold generateVersions reverseSlice
  rw [hM, hm]
  simp only [r4, r6, List.flatMap_cons, List.flatMap_nil, List.map_cons, List.map_nil, w0, w1,
    w2, w3]
  simp

/-- C4, as amended: for strings that parse as the integers `major` and `minor` with
`minor + 3` within the range of `int`, `generateVersions` returns 24 entries, of which
the entry at index `k` is `v major.(minor + 3 - k / 6).(5 - k % 6)`; for `1` and `38` the
first entry is `v1.41.5` and the last one is `v1.38.0`. -/
theorem C4_generateVersions_entries :
    (∀ (startMajorS startMinorS : Str) (major minor : Int),
      Atoi startMajorS = .ok major → Atoi startMinorS = .ok minor → minor + 3 ≤ maxInt →
      ∃ versions, generateVersions startMajorS startMinorS = .ok versions ∧
        versions.length = 24 ∧
        ∀ k : Nat, k < 24 →
          versions[k]? =
            some (fmtVersion major (minor + 3 - ((k / 6 : Nat) : Int)) (5 - ((k % 6 : Nat) : Int)))) ∧
    (generateVersions "1".toList "38".toList).toOption.bind List.head? = some "v1.41.5".toList ∧
    (generateVersions "1".toList "38".toList).toOption.bind List.getLast? =
      some "v1.38.0".toList := by
  refine ⟨?_, by decide, by decide⟩
  intro startMajorS startMinorS major minor hM hm hfit
  refine ⟨_, generateVersions_of_parsed _ _ _ _ hM hm hfit, rfl, ?_⟩
  intro k hk
  interval_cases k <;> simp <;> congr 1 <;> omega

/-- C4 at the strings `1` and `38`. -/
theorem C4_witness :
    ∃ versions, generateVersions "1".toList "38".toList = .ok versions ∧
      versions.length = 24 ∧
      ∀ k : Nat, k < 24 →
        versions[k]? =
          some (fmtVersion 1 (38 + 3 - ((k / 6 : Nat) : Int)) (5 - ((k % 6 : Nat) : Int))) :=
  C4_generateVersions_entries.1 "1".toList "38".toList 1 38 (by decide) (by decide) (by decide)

/-- C4, as stated, fails: the strings `1` and `9223372036854775807` parse as integers, and
the first entry has the minor `-9223372036854775806`, not `9223372036854775810`. -/
theorem C4_counterexample :
    Atoi "1".toList = .ok 1 ∧
      Atoi "9223372036854775807".toList = .ok 9223372036854775807 ∧
      (generateVersions "1".toList "9223372036854775807".toList).toOption.bind List.head? =
        some "v1.-9223372036854775806.5".toList ∧
      fmtVersion 1 (9223372036854775807 + 3 - ((0 / 6 : Nat) : Int)) (5 - ((0 % 6 : Nat) : Int)) =
        "v1.9223372036854775810.5".toList := by
  decide

/-! ## `generateCandidateSdkVersions` -/

theorem generateVersions_length (startMajorS startMinorS : Str) (major minor : Int)
    (hM : Atoi startMajorS = .ok major) (hm : Atoi startMinorS = .ok minor) :
    ∃ versions, generateVersions startMajorS startMinorS = .ok versions ∧
      versions.length = 24 := by
  have r4 : List.range minorCount = [0, 1, 2, 3] := by decide
  have r6 : List.range (patchCount + 1) = [0, 1, 2, 3, 4, 5] := by decide
  unfold generateVersions reverseSlice
  rw [hM, hm]
  refine ⟨_, rfl, ?_⟩
  simp only [r4, r6, List.flatMap_cons, List.flatMap_nil, List.map_cons, List.map_nil]
  simp

/-- C5, as amended: `generateCandidateSdkVersions` fails when the version, after one
leading `v` is removed, does not split at the dots into exactly three components, and
when the first or the second component does not parse as an integer; otherwise it
returns the 24 candidates of `generateVersions` for the first two components. The third
component is not read. `v1.39.0.0` fails with the format error and `vvvv1.39.0` with the
error of `strconv.Atoi` for `vvv1`. -/
theorem C5_generateCandidateSdkVersions :
    (∀ currentVersion : Str,
      (Split (TrimPrefix currentVersion "v".toList) '.').length ≠ 3 →
      generateCandidateSdkVersions currentVersion =
        .error (.errorf "invalid operator-sdk version format".toList)) ∧
    (∀ currentVersion a b c : Str,
      Split (TrimPrefix currentVersion "v".toList) '.' = [a, b, c] →
      generateCandidateSdkVersions currentVersion = generateVersions a b ∧
      (∀ e, Atoi a = .error e → generateCandidateSdkVersions currentVersion = .error e) ∧
      (∀ major e, Atoi a = .ok major → Atoi b = .error e →
        generateCandidateSdkVersions currentVersion = .error e) ∧
      (∀ major minor, Atoi a = .ok major → Atoi b = .ok minor →
        ∃ versions, generateCandidateSdkVersions currentVersion = .ok versions ∧
          versions.length = 24)) ∧
    generateCandidateSdkVersions "v1.39.0.0".toList =
      .error (.errorf "invalid operator-sdk version format".toList) ∧
    generateCandidateSdkVersions "vvvv1.39.0".toList = .error (.atoi "vvv1".toList false) := by
  refine ⟨?_, ?_, by decide, by decide⟩
  · intro currentVersion h
    unfold generateCandidateSdkVersions
    exact if_pos h
  · intro currentVersion a b c h
    have hgen : generateCandidateSdkVersions currentVersion = generateVersions a b := by
      unfold generateCandidateSdkVersions
      simp only [h]
      simp
    refine ⟨hgen, ?_, ?_, ?_⟩
    · intro e ha
      rw [hgen]
      unfold generateVersions
      rw [ha]
    · intro major e ha hb
      rw [hgen]
      unfold generateVersions
      rw [ha, hb]
    · intro major minor ha hb
      rw [hgen]
      exact generateVersions_length a b major minor ha hb

/-- C5 at `v1.39.0`, whose three components are `1`, `39` and `0`. -/
theorem C5_witness :
    ∃ versions, generateCandidateSdkVersions "v1.39.0".toList = .ok versions ∧
      versions.length = 24 :=
  (C5_generateCandidateSdkVersions.2.1 "v1.39.0".toList "1".toList "39".toList "0".toList
    (by decide)).2.2.2 1 39 (by decide) (by decide)

/-- C5, as stated, fails: `v1.39.x` does not split into three numeric components, and
`generateCandidateSdkVersions` returns the 24 candidates for `1` and `39`. -/
theorem C5_counterexample :
    Split (TrimPrefix "v1.39.x".toList "v".toList) '.' =
        ["1".toList, "39".toList, "x".toList] ∧
      Atoi "x".toList = .error (.atoi "x".toList false) ∧
      generateCandidateSdkVersions "v1.39.x".toList =
        generateVersions "1".toList "39".toList ∧
      (generateCandidateSdkVersions "v1.39.x".toList).toOption.map List.length = some 24 := by
  decide

/-! ## `GetKubernetesVersion` -/

/-- C6 fails on the code: in a `go.mod` that requires `k8s.io/apimachinery` before
`k8s.io/api`, the scan for `k8s.io/api` returns `v0.31.1`, the version of
`k8s.io/apimachinery`; on no line does `v0.31.1` follow a field equal to `k8s.io/api`,
whose own version is `v0.31.0`. -/
theorem C6_returns_version_of_other_package :
    GetKubernetesVersion
        (serve ("require (\n\tk8s.io/apimachinery v0.31.1\n)\n\n".toList ++
          "require (\n\tk8s.io/api v0.31.0 // indirect\n)\n".toList))
        "operator-framework/operator-sdk".toList "v1.39.0".toList "k8s.io/api".toList =
      .ok "v0.31.1".toList ∧
    (∀ line ∈ bodyLines ("require (\n\tk8s.io/apimachinery v0.31.1\n)\n\n".toList ++
          "require (\n\tk8s.io/api v0.31.0 // indirect\n)\n".toList),
      ¬ fieldFollows "k8s.io/api".toList "v0.31.1".toList line) ∧
    fieldFollows "k8s.io/api".toList "v0.31.0".toList
      "\tk8s.io/api v0.31.0 // indirect".toList := by
  decide

theorem fieldAfter_eq_some (pkg version : Str) (fields : List Str)
    (h : fieldAfter pkg fields = some version) : (pkg, version) ∈ fields.zip fields.tail := by
  induction fields with
  | nil => simp [fieldAfter] at h
  | cons val rest ih =>
    unfold fieldAfter at h
    by_cases hv : val = pkg
    · rw [if_pos hv] at h
      cases rest with
      | nil => simp at h
      | cons next more =>
        simp at h
        simp [hv, h]
    · rw [if_neg hv] at h
      cases rest with
      | nil => simp [fieldAfter] at h
      | cons next more =>
        have := ih h
        simp only [List.tail_cons, List.zip_cons_cons, List.mem_cons]
        exact Or.inr this

theorem fieldAfter_ne_none (pkg version : Str) (fields : List Str)
    (h : (pkg, version) ∈ fields.zip fields.tail) : fieldAfter pkg fields ≠ none := by
  induction fields with
  | nil => simp at h
  | cons val rest ih =>
    unfold fieldAfter
    cases rest with
    | nil => simp at h
    | cons next more =>
      by_cases hv : val = pkg
      · simp [hv]
      · rw [if_neg hv]
        simp only [List.tail_cons, List.zip_cons_cons, List.mem_cons, Prod.mk.injEq] at h
        rcases h with ⟨h1, _⟩ | h
        · exact absurd h1.symm hv
        · exact ih h

theorem splitWhere_head_prefix (p : Char → Bool) (s piece : Str) (pieces : List Str)
    (h : splitWhere p s = piece :: pieces) : ∃ t, s = piece ++ t := by
  induction s generalizing piece pieces with
  | nil =>
    simp [splitWhere] at h
    exact ⟨[], by simp [h.1]⟩
  | cons c cs ih =>
    unfold splitWhere at h
    by_cases hc : p c = true
    · rw [if_pos hc] at h
      simp at h
      exact ⟨c :: cs, by simp [← h.1]⟩
    · rw [if_neg hc] at h
      cases hs : splitWhere p cs with
      | nil =>
        rw [hs] at h
        simp at h
        exact ⟨cs, by simp [← h.1]⟩
      | cons q qs =>
        rw [hs] at h
        simp at h
        obtain ⟨t, ht⟩ := ih q qs hs
        exact ⟨t, by rw [← h.1, ht]; simp⟩

theorem mem_splitWhere_infix (p : Char → Bool) (s f : Str) (h : f ∈ splitWhere p s) :
    ∃ a b, s = a ++ f ++ b := by
  induction s generalizing f with
  | nil =>
    simp [splitWhere] at h
    exact ⟨[], [], by simp [h]⟩
  | cons c cs ih =>
    unfold splitWhere at h
    by_cases hc : p c = true
    · rw [if_pos hc] at h
      rcases List.mem_cons.mp h with h | h
      · exact ⟨[], c :: cs, by simp [h]⟩
      · obtain ⟨a, b, hab⟩ := ih f h
        exact ⟨c :: a, b, by simp [hab]⟩
    · rw [if_neg hc] at h
      cases hs : splitWhere p cs with
      | nil =>
        rw [hs] at h
        simp at h
        exact ⟨[], cs, by simp [h]⟩
      | cons piece pieces =>
        rw [hs] at h
        rcases List.mem_cons.mp h with h | h
        · obtain ⟨t, ht⟩ := splitWhere_head_prefix p cs piece pieces hs
          exact ⟨[], t, by simp [h, ht]⟩
        · obtain ⟨a, b, hab⟩ := ih f (by rw [hs]; exact List.mem_cons_of_mem _ h)
          exact ⟨c :: a, b, by simp [hab]⟩

theorem Contains_of_infix (a f b : Str) : Contains (a ++ f ++ b) f = true := by
  induction a with
  | nil =>
    cases hfb : f ++ b with
    | nil =>
      have hf : f = [] := (List.append_eq_nil.mp hfb).1
      have hb : b = [] := (List.append_eq_nil.mp hfb).2
      simp [Contains, hf, hb]
    | cons c cs =>
      simp only [List.nil_append, hfb, Contains, Bool.or_eq_true]
      left
      rw [← hfb]
      simp [HasPrefix]
  | cons x xs ih =>
    simp only [List.cons_append, Contains, Bool.or_eq_true]
    right
    simpa using ih

theorem Contains_of_mem_Fields (line pkg : Str) (h : pkg ∈ Fields line) :
    Contains line pkg = true := by
  unfold Fields at h
  obtain ⟨a, b, hab⟩ := mem_splitWhere_infix isSpace line pkg (List.mem_filter.mp h).1
  rw [hab]
  exact Contains_of_infix a pkg b

theorem dropWhile_append_of_ne_nil (p : Char → Bool) (s t : Str)
    (h : s.dropWhile p ≠ []) : (s ++ t).dropWhile p = s.dropWhile p ++ t := by
  induction s with
  | nil => simp at h
  | cons c cs ih =>
    by_cases hc : p c = true
    · simp only [List.cons_append, List.dropWhile_cons, hc, if_true] at h ⊢
      exact ih h
    · simp [List.dropWhile_cons, hc]

theorem TrimSpace_append_space (s : Str) (c : Char) (hc : isSpace c = true) :
    TrimSpace (s ++ [c]) = TrimSpace s := by
  unfold TrimSpace
  by_cases h : s.dropWhile isSpace = []
  · have hall := List.dropWhile_eq_nil_iff.mp h
    have h2 : (s ++ [c]).dropWhile isSpace = [] := by
      apply List.dropWhile_eq_nil_iff.mpr
      intro x hx
      rcases List.mem_append.mp hx with hx | hx
      · exact hall x hx
      · simp at hx
        rw [hx]
        exact hc
    rw [h, h2]
  · rw [dropWhile_append_of_ne_nil isSpace s [c] h]
    simp [List.dropWhile_cons, hc]

theorem TrimSpace_dropCR (line : Str) : TrimSpace (dropCR line) = TrimSpace line := by
  unfold dropCR
  by_cases h : line.getLast? = some '\r'
  · rw [if_pos h]
    have := List.dropLast_append_getLast? (l := line) '\r' (by simp [h])
    conv_rhs => rw [← this]
    exact (TrimSpace_append_space _ '\r' (by decide)).symm
  · rw [if_neg h]

theorem scanLoop_none_of_not_declares (pkg : Str) (lines : List Str)
    (h : ∀ text ∈ lines, ¬ declares pkg (TrimSpace text)) :
    ∀ inRequireBlock, scanLoop pkg inRequireBlock lines = none := by
  induction lines with
  | nil => intro b; rfl
  | cons text rest ih =>
    intro b
    have ih := ih (fun t ht => h t (List.mem_cons_of_mem _ ht))
    have hn := h text (List.mem_cons_self _ _)
    unfold declares at hn
    rw [not_or] at hn
    obtain ⟨h1, h2⟩ := hn
    rw [scanLoop]
    by_cases c1 : HasPrefix (TrimSpace text) "require (".toList = true
    · rw [if_pos c1]; exact ih true
    · rw [if_neg c1]
      by_cases c2 : (b && TrimSpace text == ")".toList) = true
      · rw [if_pos c2]; exact ih false
      · rw [if_neg c2, if_neg h1]
        by_cases c4 : (HasPrefix (TrimSpace text) "require".toList &&
            Contains (TrimSpace text) pkg) = true
        · rw [if_pos c4]
          cases hfa : fieldAfter pkg (Fields (TrimSpace text)) with
          | none => exact ih b
          | some version =>
            exfalso
            apply h2
            exact ⟨(Bool.and_eq_true _ _ ▸ c4).1, version, fieldAfter_eq_some _ _ _ hfa⟩
        · rw [if_neg c4]; exact ih b

theorem scanLoop_none_not_declares (pkg : Str) (lines : List Str) :
    ∀ inRequireBlock, scanLoop pkg inRequireBlock lines = none →
      ∀ text ∈ lines, HasPrefix (TrimSpace text) "require (".toList = false →
        TrimSpace text ≠ ")".toList → ¬ declares pkg (TrimSpace text) := by
  induction lines with
  | nil => intro b _ text ht; simp at ht
  | cons text rest ih =>
    intro b hnone t ht
    rw [scanLoop] at hnone
    by_cases c1 : HasPrefix (TrimSpace text) "require (".toList = true
    · rw [if_pos c1] at hnone
      rcases List.mem_cons.mp ht with ht | ht
      · subst ht; intro hp; rw [c1] at hp; exact absurd hp (by decide)
      · exact ih true hnone t ht
    · rw [if_neg c1] at hnone
      by_cases c2 : (b && TrimSpace text == ")".toList) = true
      · rw [if_pos c2] at hnone
        rcases List.mem_cons.mp ht with ht | ht
        · subst ht
          intro _ hne
          have h3 : (TrimSpace t == ")".toList) = true := (Bool.and_eq_true _ _ ▸ c2).2
          exact absurd (eq_of_beq h3) hne
        · exact ih false hnone t ht
      · rw [if_neg c2] at hnone
        by_cases c3 : HasPrefix (TrimSpace text) pkg = true
        · rw [if_pos c3] at hnone
          split at hnone <;> simp at hnone
        · rw [if_neg c3] at hnone
          by_cases c4 : (HasPrefix (TrimSpace text) "require".toList &&
              Contains (TrimSpace text) pkg) = true
          · rw [if_pos c4] at hnone
            cases hfa : fieldAfter pkg (Fields (TrimSpace text)) with
            | some version => rw [hfa] at hnone; simp at hnone
            | none =>
              rw [hfa] at hnone
              rcases List.mem_cons.mp ht with ht | ht
              · subst ht
                intro _ _ hd
                rcases hd with hd | ⟨_, version, hv⟩
                · exact c3 hd
                · exact fieldAfter_ne_none _ _ _ hv hfa
              · exact ih b hnone t ht
          · rw [if_neg c4] at hnone
            rcases List.mem_cons.mp ht with ht | ht
            · subst ht
              intro _ _ hd
              rcases hd with hd | ⟨hreq, version, hv⟩
              · exact c3 hd
              · apply c4
                rw [Bool.and_eq_true]
                refine ⟨hreq, Contains_of_mem_Fields _ _ ?_⟩
                exact (List.of_mem_zip hv).1
            · exact ih b hnone t ht

theorem scanLoop_some (pkg : Str) (lines : List Str) :
    ∀ inRequireBlock result, scanLoop pkg inRequireBlock lines = some result →
      (∃ version, result = .ok version) ∨ (∃ line, result = .error (.malformedLine pkg line)) := by
  induction lines with
  | nil => intro b r h; simp [scanLoop] at h
  | cons text rest ih =>
    intro b r h
    rw [scanLoop] at h
    split_ifs at h
    · exact ih _ _ h
    · exact ih _ _ h
    · split at h
      · injection h with h; exact Or.inl ⟨_, h.symm⟩
      · injection h with h; exact Or.inr ⟨_, h.symm⟩
    · split at h
      · injection h with h; exact Or.inl ⟨_, h.symm⟩
      · exact ih _ _ h
    · exact ih _ _ h

theorem scanPieces_of_short (eofWithData : Bool) (pieces : List Str)
    (h : ∀ l ∈ (if pieces.getLast? = some [] then pieces.dropLast else pieces),
      byteLen l < maxScanTokenSize) :
    scanPieces eofWithData pieces =
      ((if pieces.getLast? = some [] then pieces.dropLast else pieces).map dropCR, false) := by
  induction pieces with
  | nil => rfl
  | cons line rest ih =>
    cases rest with
    | nil =>
      rw [scanPieces]
      by_cases hl : line = []
      · subst hl
        rfl
      · have hne : ¬ (some line = some ([] : Str)) := fun hh => hl (Option.some.inj hh)
        simp only [List.getLast?_singleton, if_neg hne] at h ⊢
        have hshort := h line (List.mem_singleton.mpr rfl)
        have hempty : ¬ line.isEmpty = true := by simpa using hl
        simp only [hempty, hshort, true_or, if_true, List.map_cons, List.map_nil]
        rfl
    | cons x more =>
      have hlast : (line :: x :: more).getLast? = (x :: more).getLast? := by
        simp [List.getLast?_cons_cons]
      have hdrop : (line :: x :: more).dropLast = line :: (x :: more).dropLast := rfl
      have hsplit : (if (line :: x :: more).getLast? = some [] then (line :: x :: more).dropLast
            else line :: x :: more) =
          line :: (if (x :: more).getLast? = some [] then (x :: more).dropLast
            else x :: more) := by
        rw [hlast]
        by_cases hc : (x :: more).getLast? = some []
        · rw [if_pos hc, if_pos hc, hdrop]
        · rw [if_neg hc, if_neg hc]
      rw [hsplit] at h ⊢
      have hline := h line (List.mem_cons_self _ _)
      have ih := ih (fun l hl => h l (List.mem_cons_of_mem _ hl))
      rw [scanPieces]
      simp only [hline, if_true, ih, List.map_cons]

theorem scanPieces_of_no_error (eofWithData : Bool) (pieces : List Str)
    (h : (scanPieces eofWithData pieces).2 = false) :
    (scanPieces eofWithData pieces).1 =
        (if pieces.getLast? = some [] then pieces.dropLast else pieces).map dropCR ∧
      ∀ l ∈ (if pieces.getLast? = some [] then pieces.dropLast else pieces),
        byteLen l ≤ maxScanTokenSize := by
  induction pieces with
  | nil => exact ⟨rfl, fun l hl => by simp at hl⟩
  | cons line rest ih =>
    cases rest with
    | nil =>
      rw [scanPieces] at h ⊢
      by_cases hl : line = []
      · subst hl
        exact ⟨rfl, fun l hl => by simp at hl⟩
      · have hne : ¬ (some line = some ([] : Str)) := fun hh => hl (Option.some.inj hh)
        have hempty : ¬ line.isEmpty = true := by simpa using hl
        simp only [List.getLast?_singleton, if_neg hne]
        simp only [hempty, Bool.false_eq_true, if_false] at h ⊢
        by_cases hfit : byteLen line < maxScanTokenSize ∨
            (eofWithData = true ∧ byteLen line = maxScanTokenSize)
        · rw [if_pos hfit]
          refine ⟨rfl, ?_⟩
          intro l hl2
          rw [List.mem_singleton.mp hl2]
          rcases hfit with hfit | ⟨_, hfit⟩ <;> omega
        · rw [if_neg hfit] at h
          cases h
    | cons x more =>
      have hlast : (line :: x :: more).getLast? = (x :: more).getLast? := by
        simp [List.getLast?_cons_cons]
      have hdrop : (line :: x :: more).dropLast = line :: (x :: more).dropLast := rfl
      have hsplit : (if (line :: x :: more).getLast? = some [] then (line :: x :: more).dropLast
            else line :: x :: more) =
          line :: (if (x :: more).getLast? = some [] then (x :: more).dropLast
            else x :: more) := by
        rw [hlast]
        by_cases hc : (x :: more).getLast? = some []
        · rw [if_pos hc, if_pos hc, hdrop]
        · rw [if_neg hc, if_neg hc]
      rw [hsplit]
      rw [scanPieces] at h ⊢
      by_cases hline : byteLen line < maxScanTokenSize
      · simp only [hline, if_true] at h ⊢
        obtain ⟨ih1, ih2⟩ := ih h
        refine ⟨by rw [ih1, List.map_cons], ?_⟩
        intro l hl
        rcases List.mem_cons.mp hl with hl | hl
        · rw [hl]; omega
        · exact ih2 l hl
      · simp only [hline, if_false] at h
        cases h

theorem scanLines_of_short (body : Str) (eofWithData : Bool)
    (h : ∀ l ∈ bodyLines body, byteLen l < maxScanTokenSize) :
    scanLines body eofWithData = ((bodyLines body).map dropCR, false) :=
  scanPieces_of_short eofWithData _ h

theorem scanLines_of_no_error (body : Str) (eofWithData : Bool)
    (h : (scanLines body eofWithData).2 = false) :
    (scanLines body eofWithData).1 = (bodyLines body).map dropCR ∧
      ∀ l ∈ bodyLines body, byteLen l ≤ maxScanTokenSize :=
  scanPieces_of_no_error eofWithData _ h

/-- C7, as amended. For a body served with status 200: when every line is shorter than
the buffer of the scanner, 65536 bytes, and no trimmed line declares `pkg`,
`GetKubernetesVersion` fails with `pkg not found in go.mod`; and when it fails with that
error, no line is longer than 65536 bytes and no trimmed line declares `pkg`, apart from
the lines that start with `require (` and the lines `)`, which the scan may skip. -/
theorem C7_not_found (get : Str → HttpResult) (repo branch pkg body : Str)
    (eofWithData : Bool)
    (hget : get (goModPath repo branch) = .response 200 body eofWithData) :
    ((∀ l ∈ bodyLines body, byteLen l < maxScanTokenSize) →
      (∀ l ∈ bodyLines body, ¬ declares pkg (TrimSpace l)) →
      GetKubernetesVersion get repo branch pkg =
        .error (.errorf (pkg ++ " not found in go.mod".toList))) ∧
    (GetKubernetesVersion get repo branch pkg =
        .error (.errorf (pkg ++ " not found in go.mod".toList)) →
      (∀ l ∈ bodyLines body, byteLen l ≤ maxScanTokenSize) ∧
      ∀ l ∈ bodyLines body, HasPrefix (TrimSpace l) "require (".toList = false →
        TrimSpace l ≠ ")".toList → ¬ declares pkg (TrimSpace l)) := by
  have hG : GetKubernetesVersion get repo branch pkg = scanGoMod body pkg eofWithData := by
    unfold GetKubernetesVersion
    rw [hget]
    simp
  rw [hG]
  constructor
  · intro hshort hno
    unfold scanGoMod
    rw [scanLines_of_short body eofWithData hshort]
    have : scanLoop pkg false ((bodyLines body).map dropCR) = none := by
      apply scanLoop_none_of_not_declares
      intro t ht
      obtain ⟨l, hl, rfl⟩ := List.mem_map.mp ht
      rw [TrimSpace_dropCR]
      exact hno l hl
    simp [this]
  · intro hres
    unfold scanGoMod at hres
    cases hloop : scanLoop pkg false (scanLines body eofWithData).1 with
    | some r =>
      rw [hloop] at hres
      simp only [] at hres
      rcases scanLoop_some _ _ _ _ hloop with ⟨v, hv⟩ | ⟨l, hl⟩
      · rw [hv] at hres; cases hres
      · rw [hl] at hres; cases hres
    | none =>
      rw [hloop] at hres
      simp only [] at hres
      by_cases hlong : (scanLines body eofWithData).2 = true
      · rw [if_pos hlong] at hres; cases hres
      · obtain ⟨htokens, hlen⟩ := scanLines_of_no_error body eofWithData (by simpa using hlong)
        refine ⟨hlen, ?_⟩
        rw [htokens] at hloop
        intro l hl h1 h2
        have := scanLoop_none_not_declares pkg _ false hloop (dropCR l)
          (List.mem_map.mpr ⟨l, hl, rfl⟩)
        rw [TrimSpace_dropCR] at this
        exact this h1 h2

/-- C7 at a `go.mod` of two lines that do not name `k8s.io/api`. -/
theorem C7_witness :
    GetKubernetesVersion (serve "module example.com/m\ngo 1.22\n".toList)
        "openshift/api".toList "release-4.18".toList "k8s.io/api".toList =
      .error (.errorf ("k8s.io/api".toList ++ " not found in go.mod".toList)) :=
  (C7_not_found (serve "module example.com/m\ngo 1.22\n".toList)
    "openshift/api".toList "release-4.18".toList "k8s.io/api".toList
    "module example.com/m\ngo 1.22\n".toList true rfl).1 (by decide) (by decide)

theorem splitWhere_of_none (p : Char → Bool) (s : Str) (h : ∀ c ∈ s, p c = false) :
    splitWhere p s = [s] := by
  induction s with
  | nil => rfl
  | cons c cs ih =>
    have hc : p c = false := h c (List.mem_cons_self _ _)
    rw [splitWhere, ih (fun x hx => h x (List.mem_cons_of_mem _ hx))]
    simp [hc]

theorem byteLen_replicate_a (n : Nat) : byteLen (List.replicate n 'a') = n := by
  unfold byteLen
  have : Char.utf8Size 'a' = 1 := by decide
  simp [List.map_replicate, List.sum_replicate, this]

theorem scanGoMod_long_line (pkg : Str) (eofWithData : Bool) (n : Nat)
    (hn : maxScanTokenSize < n) :
    scanGoMod (List.replicate n 'a') pkg eofWithData =
        .error (.wrapped "scanner error".toList .tooLong) ∧
      bodyLines (List.replicate n 'a') = [List.replicate n 'a'] := by
  have hsplit : splitWhere (fun c => c == '\n') (List.replicate n 'a') =
      [List.replicate n 'a'] := by
    apply splitWhere_of_none
    intro c hc
    rw [List.eq_of_mem_replicate hc]
    decide
  have hne : List.replicate n 'a' ≠ [] := by
    intro h
    have := congrArg List.length h
    rw [List.length_replicate] at this
    unfold maxScanTokenSize at hn
    simp at this
    omega
  have hlines : bodyLines (List.replicate n 'a') = [List.replicate n 'a'] := by
    unfold bodyLines
    rw [hsplit]
    simp only [List.getLast?_singleton, Option.some.injEq]
    rw [if_neg hne]
  refine ⟨?_, hlines⟩
  have hempty : ¬ (List.replicate n 'a').isEmpty = true := by simpa using hne
  have hfit : ¬ (byteLen (List.replicate n 'a') < maxScanTokenSize ∨
      (eofWithData = true ∧ byteLen (List.replicate n 'a') = maxScanTokenSize)) := by
    rw [byteLen_replicate_a]
    omega
  unfold scanGoMod scanLines
  rw [hsplit, scanPieces]
  simp only [hempty, Bool.false_eq_true, if_false, hfit, scanLoop, if_true]

theorem dropWhile_of_none (p : Char → Bool) (s : Str) (h : ∀ c ∈ s, p c = false) :
    s.dropWhile p = s := by
  cases s with
  | nil => rfl
  | cons c cs => simp [List.dropWhile_cons, h c (List.mem_cons_self _ _)]

theorem TrimSpace_of_none (s : Str) (h : ∀ c ∈ s, isSpace c = false) : TrimSpace s = s := by
  unfold TrimSpace
  rw [dropWhile_of_none isSpace s h, dropWhile_of_none isSpace s.reverse
    (fun c hc => h c (List.mem_reverse.mp hc)), List.reverse_reverse]

theorem not_declares_replicate_a (n : Nat) :
    ¬ declares "k8s.io/api".toList (TrimSpace (List.replicate n 'a')) := by
  rw [TrimSpace_of_none _ (fun c hc => by rw [List.eq_of_mem_replicate hc]; decide)]
  cases n with
  | zero => decide
  | succ m =>
    unfold declares
    rw [List.replicate_succ]
    intro h
    rcases h with h | ⟨h, _⟩
    · exact absurd h (by simp [HasPrefix])
    · exact absurd h (by simp [HasPrefix])

/-- A body of one line of exactly 65536 letters without a line feed: when the reader
reports the end of the body with its last bytes the scanner yields the line, and the
scan ends with the not-found error; when the end comes on a read of its own the buffer
is full before, and the scan ends with the error of the scanner. -/
theorem scanGoMod_full_line (n : Nat) (hn : maxScanTokenSize = n) :
    scanGoMod (List.replicate n 'a') "k8s.io/api".toList true =
        .error (.errorf ("k8s.io/api".toList ++ " not found in go.mod".toList)) ∧
      scanGoMod (List.replicate n 'a') "k8s.io/api".toList false =
        .error (.wrapped "scanner error".toList .tooLong) := by
  have hpos : 0 < n := by rw [← hn]; decide
  have hsplit : splitWhere (fun c => c == '\n') (List.replicate n 'a') =
      [List.replicate n 'a'] := by
    apply splitWhere_of_none
    intro c hc
    rw [List.eq_of_mem_replicate hc]
    decide
  have hne : List.replicate n 'a' ≠ [] := by
    intro h
    have := congrArg List.length h
    rw [List.length_replicate] at this
    simp at this
    omega
  have hempty : ¬ (List.replicate n 'a').isEmpty = true := by simpa using hne
  have hloop : scanLoop "k8s.io/api".toList false [dropCR (List.replicate n 'a')] = none := by
    apply scanLoop_none_of_not_declares
    intro t ht
    rw [List.mem_singleton.mp ht, TrimSpace_dropCR]
    exact not_declares_replicate_a n
  constructor
  · have hfit : byteLen (List.replicate n 'a') < n ∨
        (True ∧ byteLen (List.replicate n 'a') = n) :=
      Or.inr ⟨trivial, byteLen_replicate_a n⟩
    unfold scanGoMod scanLines
    rw [hsplit, scanPieces, hn]
    simp only [hempty, Bool.false_eq_true, if_false, hfit, if_true, hloop]
  · have hfit : ¬ (byteLen (List.replicate n 'a') < n ∨
        (False ∧ byteLen (List.replicate n 'a') = n)) := by
      rw [byteLen_replicate_a]
      simp
    unfold scanGoMod scanLines
    rw [hsplit, scanPieces, hn]
    simp only [hempty, Bool.false_eq_true, if_false, hfit, scanLoop, if_true]

/-- C7, as stated, fails in both directions. A line `require ( k8s.io/api v0.31.0 )`
starts with `require` and has `k8s.io/api` as a field followed by another field, and a
line `)` starts with the package `)`, yet the scan ends with the not-found error; and a
body of one line of 65537 letters, which does not declare `k8s.io/api`, ends with the
error of the scanner instead, however the reader reports the end of the body. -/
theorem C7_counterexample :
    ("require ( k8s.io/api v0.31.0 )".toList ∈ bodyLines "require ( k8s.io/api v0.31.0 )".toList ∧
      declares "k8s.io/api".toList (TrimSpace "require ( k8s.io/api v0.31.0 )".toList) ∧
      GetKubernetesVersion (serve "require ( k8s.io/api v0.31.0 )".toList)
          "openshift/api".toList "release-4.18".toList "k8s.io/api".toList =
        .error (.errorf ("k8s.io/api".toList ++ " not found in go.mod".toList))) ∧
    (")".toList ∈ bodyLines "require (\n)\n".toList ∧
      declares ")".toList (TrimSpace ")".toList) ∧
      GetKubernetesVersion (serve "require (\n)\n".toList)
          "openshift/api".toList "release-4.18".toList ")".toList =
        .error (.errorf (")".toList ++ " not found in go.mod".toList))) ∧
    ((∀ l ∈ bodyLines (List.replicate 65537 'a'), ¬ declares "k8s.io/api".toList (TrimSpace l)) ∧
      GetKubernetesVersion (fun _ => .response 200 (List.replicate 65537 'a') true)
          "openshift/api".toList "release-4.18".toList "k8s.io/api".toList =
        .error (.wrapped "scanner error".toList .tooLong) ∧
      GetKubernetesVersion (fun _ => .response 200 (List.replicate 65537 'a') false)
          "openshift/api".toList "release-4.18".toList "k8s.io/api".toList =
        .error (.wrapped "scanner error".toList .tooLong)) := by
  have hG : ∀ eof : Bool, GetKubernetesVersion
      (fun _ => .response 200 (List.replicate 65537 'a') eof)
      "openshift/api".toList "release-4.18".toList "k8s.io/api".toList =
      scanGoMod (List.replicate 65537 'a') "k8s.io/api".toList eof := by
    intro eof
    unfold GetKubernetesVersion
    simp only [ne_eq, not_true_eq_false, if_false]
  refine ⟨by decide, by decide, ?_, ?_, ?_⟩
  · intro l hl
    rw [(scanGoMod_long_line "k8s.io/api".toList true 65537 (by decide)).2] at hl
    rw [List.mem_singleton.mp hl]
    exact not_declares_replicate_a 65537
  · rw [hG true]
    exact (scanGoMod_long_line "k8s.io/api".toList true 65537 (by decide)).1
  · rw [hG false]
    exact (scanGoMod_long_line "k8s.io/api".toList false 65537 (by decide)).1

/-! ## `getVersionWithCommitHashForBranch` -/

theorem utf8Size_of_ascii (c : Char) (h : c.toNat < 128) : c.utf8Size = 1 := by
  unfold Char.utf8Size
  have : c.val ≤ 127 := by
    rw [UInt32.le_def]
    show c.val.toNat ≤ 127
    unfold Char.toNat at h
    omega
  simp [this]

theorem sliceTo_ascii (s : Str) :
    ∀ n, n ≤ s.length → (∀ c ∈ s.take n, c.toNat < 128) → sliceTo s n = .ok (s.take n) := by
  induction s with
  | nil =>
    intro n hn _
    have : n = 0 := by simpa using hn
    subst this
    rfl
  | cons c cs ih =>
    intro n hn hascii
    cases n with
    | zero => rfl
    | succ m =>
      have hc : c.utf8Size = 1 :=
        utf8Size_of_ascii c (hascii c (by simp))
      rw [sliceTo, hc]
      have hm : m ≤ cs.length := by simpa using hn
      have := ih m hm (fun x hx => hascii x (by simp [hx]))
      simp [this]

/-- C8, as amended. When `git ls-remote` succeeds with an output whose first field
starts with at least 12 ASCII characters, and the commit request gives a response with
status 200 whose committer time is rendered as `timestamp`,
`getVersionWithCommitHashForBranch` returns `v0.0.0-`, `timestamp`, `-` and the first 12
characters of that field; when the output has no field, it fails with
`no commit found for branch` and the branch. -/
theorem C8_getVersionWithCommitHashForBranch :
    (∀ (lsRemote : Str → Str → Str × Option GoError) (getCommit : Str → CommitResponse)
        (repo branch output commitHash timestamp : Str) (more : List Str),
      lsRemote ("https://".toList ++ repo ++ ".git".toList) branch = (output, none) →
      Fields output = commitHash :: more →
      getCommit ("repos/".toList ++ TrimPrefix repo "github.com/".toList ++
        "/commits/".toList ++ commitHash) = .commit timestamp →
      12 ≤ commitHash.length → (∀ c ∈ commitHash.take 12, c.toNat < 128) →
      getVersionWithCommitHashForBranch lsRemote getCommit repo branch =
        .ok ("v0.0.0-".toList ++ timestamp ++ "-".toList ++ commitHash.take 12)) ∧
    (∀ (lsRemote : Str → Str → Str × Option GoError) (getCommit : Str → CommitResponse)
        (repo branch output : Str),
      lsRemote ("https://".toList ++ repo ++ ".git".toList) branch = (output, none) →
      Fields output = [] →
      getVersionWithCommitHashForBranch lsRemote getCommit repo branch =
        .err (.errorf ("no commit found for branch ".toList ++ branch))) := by
  constructor
  · intro lsRemote getCommit repo branch output commitHash timestamp more hls hf hc hlen hascii
    unfold getVersionWithCommitHashForBranch
    simp only [hls, hf, hc, sliceTo_ascii commitHash 12 hlen hascii, pseudoVersion]
  · intro lsRemote getCommit repo branch output hls hf
    unfold getVersionWithCommitHashForBranch
    simp only [hls, hf]

/-- C8 at an output whose first field has 40 hexadecimal digits and starts with `d6c84c55a124`. -/
theorem C8_witness :
    getVersionWithCommitHashForBranch
        (fun _ _ => ("d6c84c55a1240a8ffb2ba9bd2c9d0b0d9bbc4bd1\trefs/heads/release-4.18\n".toList,
          none))
        (fun _ => .commit "20250410062700".toList)
        "github.com/openshift/api".toList "release-4.18".toList =
      .ok ("v0.0.0-".toList ++ "20250410062700".toList ++ "-".toList ++
        ("d6c84c55a1240a8ffb2ba9bd2c9d0b0d9bbc4bd1".toList).take 12) :=
  C8_getVersionWithCommitHashForBranch.1
    (fun _ _ => ("d6c84c55a1240a8ffb2ba9bd2c9d0b0d9bbc4bd1\trefs/heads/release-4.18\n".toList,
      none))
    (fun _ => .commit "20250410062700".toList)
    "github.com/openshift/api".toList "release-4.18".toList
    "d6c84c55a1240a8ffb2ba9bd2c9d0b0d9bbc4bd1\trefs/heads/release-4.18\n".toList
    "d6c84c55a1240a8ffb2ba9bd2c9d0b0d9bbc4bd1".toList "20250410062700".toList
    ["refs/heads/release-4.18".toList] rfl (by decide) rfl (by decide) (by decide)

/-- C8, as stated, fails. With a response of status 200 in each case: the output of one
line feed is not empty and the call fails with `no commit found`; the output `abc` has a
first field of 3 bytes and the call panics; and for a first field of twelve letters `é`
the call returns the first 12 bytes, six letters, not the first 12 characters. -/
theorem C8_counterexample :
    ("\n".toList ≠ [] ∧
      getVersionWithCommitHashForBranch (fun _ _ => ("\n".toList, none))
          (fun _ => .commit "20250410062700".toList)
          "github.com/openshift/api".toList "release-4.18".toList =
        .err (.errorf "no commit found for branch release-4.18".toList)) ∧
    (Fields "abc\trefs/heads/release-4.18\n".toList =
        ["abc".toList, "refs/heads/release-4.18".toList] ∧
      getVersionWithCommitHashForBranch
          (fun _ _ => ("abc\trefs/heads/release-4.18\n".toList, none))
          (fun _ => .commit "20250410062700".toList)
          "github.com/openshift/api".toList "release-4.18".toList = .panic) ∧
    (getVersionWithCommitHashForBranch (fun _ _ => ("éééééééééééé\tx\n".toList, none))
          (fun _ => .commit "20250410062700".toList)
          "github.com/openshift/api".toList "release-4.18".toList =
        .ok "v0.0.0-20250410062700-éééééé".toList ∧
      ("éééééééééééé".toList).take 12 = "éééééééééééé".toList) := by
  decide

/-! ## Release tags against pseudo-versions -/

theorem toDigitsCore_head (fuel : Nat) :
    ∀ (n : Nat) (ds : List Char), 0 < n → n < fuel →
      ∃ c rest, Nat.toDigitsCore 10 fuel n ds = c :: rest ∧ 49 ≤ c.toNat ∧ c.toNat ≤ 57 := by
  induction fuel with
  | zero => intro n ds _ h; omega
  | succ fuel ih =>
    intro n ds hpos hfuel
    unfold Nat.toDigitsCore
    by_cases h0 : n / 10 = 0
    · simp only [h0, if_true]
      have hn : n < 10 := by omega
      refine ⟨_, _, rfl, ?_⟩
      rw [Nat.mod_eq_of_lt hn]
      interval_cases n <;> decide
    · simp only [h0, if_false]
      exact ih (n / 10) _ (by omega) (by omega)

theorem toDigits_head (n : Nat) (hpos : 0 < n) :
    ∃ c rest, Nat.toDigits 10 n = c :: rest ∧ 49 ≤ c.toNat ∧ c.toNat ≤ 57 :=
  toDigitsCore_head (n + 1) n [] hpos (by omega)

theorem fmtInt_natCast (n : Nat) : fmtInt (n : Int) = Nat.toDigits 10 n := by
  unfold fmtInt
  simp

theorem strLess_releaseTag_iff (timestamp hash : Str) (major minor patch : Nat) :
    strLess (fmtVersion major minor patch) (pseudoVersion timestamp hash) = true ↔
      major = 0 ∧ minor = 0 ∧ patch = 0 := by
  have z : Nat.toDigits 10 0 = ['0'] := by decide
  unfold fmtVersion pseudoVersion
  rw [fmtInt_natCast, fmtInt_natCast, fmtInt_natCast]
  rcases Nat.eq_zero_or_pos major with hM | hM
  · subst hM
    rw [z]
    rcases Nat.eq_zero_or_pos minor with hm | hm
    · subst hm
      rw [z]
      rcases Nat.eq_zero_or_pos patch with hp | hp
      · subst hp
        rw [z]
        simp [strLess]
      · obtain ⟨c, rest, hc, h1, h2⟩ := toDigits_head patch hp
        rw [hc]
        have : ¬ c.toNat < 48 := by omega
        have h3 : 48 < c.toNat := by omega
        simp [strLess, this, h3]
        omega
    · obtain ⟨c, rest, hc, h1, h2⟩ := toDigits_head minor hm
      rw [hc]
      have : ¬ c.toNat < 48 := by omega
      have h3 : 48 < c.toNat := by omega
      simp [strLess, this, h3]
      omega
  · obtain ⟨c, rest, hc, h1, h2⟩ := toDigits_head major hM
    rw [hc]
    have : ¬ c.toNat < 48 := by omega
    have h3 : 48 < c.toNat := by omega
    simp [strLess, this, h3]
    omega

theorem strLess_pseudoVersion_releaseTag (timestamp hash : Str) (major minor patch : Nat)
    (h : ¬ (major = 0 ∧ minor = 0 ∧ patch = 0)) :
    strLess (pseudoVersion timestamp hash) (fmtVersion major minor patch) = true := by
  have z : Nat.toDigits 10 0 = ['0'] := by decide
  unfold fmtVersion pseudoVersion
  rw [fmtInt_natCast, fmtInt_natCast, fmtInt_natCast]
  rcases Nat.eq_zero_or_pos major with hM | hM
  · subst hM
    rw [z]
    rcases Nat.eq_zero_or_pos minor with hm | hm
    · subst hm
      rw [z]
      rcases Nat.eq_zero_or_pos patch with hp | hp
      · exact absurd ⟨rfl, rfl, hp⟩ h
      · obtain ⟨c, rest, hc, h1, h2⟩ := toDigits_head patch hp
        rw [hc]
        have h3 : 48 < c.toNat := by omega
        simp [strLess, h3]
    · obtain ⟨c, rest, hc, h1, h2⟩ := toDigits_head minor hm
      rw [hc]
      have h3 : 48 < c.toNat := by omega
      simp [strLess, h3]
  · obtain ⟨c, rest, hc, h1, h2⟩ := toDigits_head major hM
    rw [hc]
    have h3 : 48 < c.toNat := by omega
    simp [strLess, h3]

/-- C9, as amended. For a pseudo-version `p` made of `v0.0.0-`, a timestamp, `-` and a
hash, and a release tag `r` made of `v` and three natural numbers in decimal: `r < p`
under the comparison of `upgradePackage` exactly when `r` is `v0.0.0`; for every other
release tag `p < r`, and `upgradePackage` with the target `p` on a module that has the
package at `r` runs no command and returns no error. -/
theorem C9_release_tag_below_pseudo_version_iff (timestamp hash : Str)
    (major minor patch : Nat) :
    (strLess (fmtVersion major minor patch) (pseudoVersion timestamp hash) = true ↔
      major = 0 ∧ minor = 0 ∧ patch = 0) ∧
    (¬ (major = 0 ∧ minor = 0 ∧ patch = 0) →
      strLess (pseudoVersion timestamp hash) (fmtVersion major minor patch) = true) ∧
    (∀ (σ : Type) (go : GoCommand σ) (projectPath packageName : Str) (s : σ),
      (getPackageVersion go projectPath packageName s).1 =
        .ok (fmtVersion major minor patch) →
      ¬ (major = 0 ∧ minor = 0 ∧ patch = 0) →
      upgradePackage go projectPath packageName (pseudoVersion timestamp hash) s =
        (none, [], (getPackageVersion go projectPath packageName s).2)) := by
  refine ⟨strLess_releaseTag_iff timestamp hash major minor patch,
    strLess_pseudoVersion_releaseTag timestamp hash major minor patch, ?_⟩
  intro σ go projectPath packageName s hget hne
  have hless : strLess (fmtVersion major minor patch) (pseudoVersion timestamp hash) = false := by
    cases h : strLess (fmtVersion major minor patch) (pseudoVersion timestamp hash) with
    | false => rfl
    | true => exact absurd ((strLess_releaseTag_iff timestamp hash major minor patch).mp h) hne
  unfold upgradePackage
  cases hg : getPackageVersion go projectPath packageName s with
  | mk result s1 =>
    rw [hg] at hget
    simp only at hget
    subst hget
    simp [hless]

/-- C9 at the release tag `v0.19.3`, installed in a module whose `go` command does
nothing, and the pseudo-version `v0.0.0-20250410062700-d6c84c55a124`. -/
theorem C9_witness :
    upgradePackage
        (⟨fun _ _ s => (([], none), s), fun _ _ s => (none, s),
          fun _ => .ok ⟨[⟨"github.com/openshift/api".toList, fmtVersion 0 19 3⟩]⟩⟩ :
          GoCommand Unit)
        "/path/to/project".toList "github.com/openshift/api".toList
        (pseudoVersion "20250410062700".toList "d6c84c55a124".toList) () =
      (none, [], ()) :=
  (C9_release_tag_below_pseudo_version_iff "20250410062700".toList "d6c84c55a124".toList
    0 19 3).2.2 Unit
    ⟨fun _ _ s => (([], none), s), fun _ _ s => (none, s),
      fun _ => .ok ⟨[⟨"github.com/openshift/api".toList, fmtVersion 0 19 3⟩]⟩⟩
    "/path/to/project".toList "github.com/openshift/api".toList () (by decide) (by decide)

/-- C9, as stated, fails: the release tag `v0.19.3` is not below the pseudo-version
`v0.0.0-20250410062700-d6c84c55a124` but above it, and `upgradePackage` runs no command
for a package installed at `v0.19.3` with that pseudo-version as the target. -/
theorem C9_counterexample :
    fmtVersion 0 19 3 = "v0.19.3".toList ∧
    pseudoVersion "20250410062700".toList "d6c84c55a124".toList =
      "v0.0.0-20250410062700-d6c84c55a124".toList ∧
    strLess "v0.19.3".toList "v0.0.0-20250410062700-d6c84c55a124".toList = false ∧
    strLess "v0.0.0-20250410062700-d6c84c55a124".toList "v0.19.3".toList = true ∧
    upgradePackage
        (⟨fun _ _ s => (([], none), s), fun _ _ s => (none, s),
          fun _ => .ok ⟨[⟨"github.com/openshift/api".toList, "v0.19.3".toList⟩]⟩⟩ :
          GoCommand Unit)
        "/path/to/project".toList "github.com/openshift/api".toList
        "v0.0.0-20250410062700-d6c84c55a124".toList () =
      (none, [], ()) := by
  decide

/-! ## `findMatchingOperatorSDKConfig` -/

theorem fetchDependencies_paths (get : Str → HttpResult) (repo branch : Str)
    (deps : List Str) :
    ∀ path ∈ (fetchDependencies get repo branch deps).2, path = goModPath repo branch := by
  induction deps with
  | nil => intro path h; simp [fetchDependencies] at h
  | cons dep rest ih =>
    intro path h
    rw [fetchDependencies] at h
    split at h
    · simpa using h
    · rcases List.mem_cons.mp h with h | h
      · exact h
      · exact ih path h

theorem matchLoop_first_match (get : Str → HttpResult)
    (k8sVersionUsedByOpenshift openshiftVersion : Str) (before : List Str) (version : Str)
    (after : List Str)
    (hbefore : ∀ x ∈ before, ¬ accepts get k8sVersionUsedByOpenshift x)
    (hversion : accepts get k8sVersionUsedByOpenshift version) :
    matchLoop get k8sVersionUsedByOpenshift openshiftVersion (before ++ version :: after) =
      (match (buildDependencyConfig get sdkRepo version openshiftVersion).1 with
       | .error e => .error (.wrapped "error building config".toList e)
       | .ok config => .ok config,
       before.map (goModPath sdkRepo) ++ goModPath sdkRepo version ::
         (buildDependencyConfig get sdkRepo version openshiftVersion).2) := by
  induction before with
  | nil =>
    obtain ⟨v, hv, hsame⟩ := hversion
    simp only [List.nil_append, List.map_nil]
    rw [matchLoop]
    simp only [hv, hsame, if_true]
  | cons x xs ih =>
    have ih := ih (fun y hy => hbefore y (List.mem_cons_of_mem _ hy))
    have hx := hbefore x (List.mem_cons_self _ _)
    simp only [List.cons_append, List.map_cons]
    rw [matchLoop]
    cases hg : GetKubernetesVersion get sdkRepo x "k8s.io/api".toList with
    | error e => simp only [ih]
    | ok v =>
      have hns : ¬ (hasSameMinorVersion v k8sVersionUsedByOpenshift).1 = true :=
        fun h => hx ⟨v, hg, h⟩
      simp only [hns, Bool.false_eq_true, if_false, ih]

/-- C10: when the candidates of `generateCandidateSdkVersions` are `before`, `version`
and `after`, in this order, no candidate of `before` matches and `version` matches,
`findMatchingOperatorSDKConfig` returns what `buildDependencyConfig` gives for `version`
(its error wrapped in `error building config`), and the paths it requests are those of
the candidates of `before`, in order, then that of `version` for each request by
`buildDependencyConfig`: a candidate whose fetch fails is passed over, and no
candidate of `after` is requested. -/
theorem C10_first_match_wins (get : Str → HttpResult)
    (k8sVersionUsedByOpenshift currentOperatorSdkVersion openshiftVersion : Str)
    (before : List Str) (version : Str) (after : List Str)
    (hcandidates :
      generateCandidateSdkVersions currentOperatorSdkVersion = .ok (before ++ version :: after))
    (hbefore : ∀ x ∈ before, ¬ accepts get k8sVersionUsedByOpenshift x)
    (hversion : accepts get k8sVersionUsedByOpenshift version) :
    (findMatchingOperatorSDKConfig get k8sVersionUsedByOpenshift currentOperatorSdkVersion
        openshiftVersion).1 =
      (match (buildDependencyConfig get sdkRepo version openshiftVersion).1 with
       | .error e => .error (.wrapped "error building config".toList e)
       | .ok config => .ok config) ∧
    (∃ requests,
      (findMatchingOperatorSDKConfig get k8sVersionUsedByOpenshift currentOperatorSdkVersion
        openshiftVersion).2 =
        before.map (goModPath sdkRepo) ++ goModPath sdkRepo version :: requests ∧
      ∀ path ∈ requests, path = goModPath sdkRepo version) := by
  unfold findMatchingOperatorSDKConfig
  rw [hcandidates]
  simp only
  rw [matchLoop_first_match get k8sVersionUsedByOpenshift openshiftVersion before version after
    hbefore hversion]
  refine ⟨rfl, _, rfl, ?_⟩
  unfold buildDependencyConfig
  exact fetchDependencies_paths get sdkRepo version toolPackages

/-- C10 at the current version `v1.39.0`, the platform version `v0.31.2` and a server
without the first candidate `v1.42.5`: the second candidate `v1.42.4` is used. -/
theorem C10_witness :
    (findMatchingOperatorSDKConfig sampleGet "v0.31.2".toList "v1.39.0".toList
        "4.18".toList).1 =
      .ok ⟨[⟨"sigs.k8s.io/controller-runtime".toList, "v0.19.7".toList, []⟩,
        ⟨"github.com/operator-framework/api".toList, "v0.27.0".toList, []⟩,
        ⟨"github.com/operator-framework/operator-registry".toList, "v1.49.0".toList, []⟩,
        ⟨"sigs.k8s.io/controller-tools".toList, "v0.16.5".toList, []⟩,
        ⟨"github.com/openshift/api".toList, [], "release-4.18".toList⟩,
        ⟨"github.com/openshift/library-go".toList, [], "release-4.18".toList⟩]⟩ ∧
    (∃ requests,
      (findMatchingOperatorSDKConfig sampleGet "v0.31.2".toList "v1.39.0".toList
        "4.18".toList).2 =
        ["v1.42.5".toList].map (goModPath sdkRepo) ++
          goModPath sdkRepo "v1.42.4".toList :: requests ∧
      ∀ path ∈ requests, path = goModPath sdkRepo "v1.42.4".toList) :=
  have h := C10_first_match_wins sampleGet "v0.31.2".toList "v1.39.0".toList "4.18".toList
    ["v1.42.5".toList] "v1.42.4".toList
    ["v1.42.3".toList, "v1.42.2".toList, "v1.42.1".toList, "v1.42.0".toList,
     "v1.41.5".toList, "v1.41.4".toList, "v1.41.3".toList, "v1.41.2".toList,
     "v1.41.1".toList, "v1.41.0".toList, "v1.40.5".toList, "v1.40.4".toList,
     "v1.40.3".toList, "v1.40.2".toList, "v1.40.1".toList, "v1.40.0".toList,
     "v1.39.5".toList, "v1.39.4".toList, "v1.39.3".toList, "v1.39.2".toList,
     "v1.39.1".toList, "v1.39.0".toList]
    (by decide)
    (by
      intro x hx
      rw [List.mem_singleton.mp hx]
      rintro ⟨v, hv, _⟩
      have hfail : GetKubernetesVersion sampleGet sdkRepo "v1.42.5".toList "k8s.io/api".toList =
          .error (.non200 404) := by decide
      rw [hfail] at hv
      cases hv)
    ⟨"v0.31.0".toList, by decide, by decide⟩
  ⟨h.1.trans (by decide), h.2⟩

theorem matchLoop_no_match (get : Str → HttpResult)
    (k8sVersionUsedByOpenshift openshiftVersion : Str) (candidates : List Str)
    (h : ∀ x ∈ candidates, ¬ accepts get k8sVersionUsedByOpenshift x) :
    matchLoop get k8sVersionUsedByOpenshift openshiftVersion candidates =
      (.error (.errorf ("no matching operator-sdk version found for Kubernetes ".toList ++
        k8sVersionUsedByOpenshift)), candidates.map (goModPath sdkRepo)) := by
  induction candidates with
  | nil => rfl
  | cons x xs ih =>
    have ih := ih (fun y hy => h y (List.mem_cons_of_mem _ hy))
    have hx := h x (List.mem_cons_self _ _)
    rw [matchLoop]
    cases hg : GetKubernetesVersion get sdkRepo x "k8s.io/api".toList with
    | error e => simp only [ih, List.map_cons]
    | ok v =>
      have hns : ¬ (hasSameMinorVersion v k8sVersionUsedByOpenshift).1 = true :=
        fun h => hx ⟨v, hg, h⟩
      simp only [hns, Bool.false_eq_true, if_false, ih, List.map_cons]

/-- C11: when `generateCandidateSdkVersions` succeeds and no candidate matches (its fetch
fails, or the version it declares has not the major and minor of the platform's),
`findMatchingOperatorSDKConfig` returns no config and the error
`no matching operator-sdk version found for Kubernetes` with the platform's version,
after one request for each candidate, in order. -/
theorem C11_no_match (get : Str → HttpResult)
    (k8sVersionUsedByOpenshift currentOperatorSdkVersion openshiftVersion : Str)
    (candidates : List Str)
    (hcandidates : generateCandidateSdkVersions currentOperatorSdkVersion = .ok candidates)
    (hnone : ∀ x ∈ candidates, ¬ accepts get k8sVersionUsedByOpenshift x) :
    findMatchingOperatorSDKConfig get k8sVersionUsedByOpenshift currentOperatorSdkVersion
        openshiftVersion =
      (.error (.errorf ("no matching operator-sdk version found for Kubernetes ".toList ++
        k8sVersionUsedByOpenshift)), candidates.map (goModPath sdkRepo)) := by
  unfold findMatchingOperatorSDKConfig
  rw [hcandidates]
  exact matchLoop_no_match get k8sVersionUsedByOpenshift openshiftVersion candidates hnone

/-- C11 at the current version `v1.39.0`, the platform version `v0.31.2` and a server
that answers 404 to every request. -/
theorem C11_witness :
    (findMatchingOperatorSDKConfig notServed "v0.31.2".toList "v1.39.0".toList
        "4.18".toList).1 =
      .error (.errorf "no matching operator-sdk version found for Kubernetes v0.31.2".toList) :=
  congrArg Prod.fst
    (C11_no_match notServed "v0.31.2".toList "v1.39.0".toList "4.18".toList
      ["v1.42.5".toList, "v1.42.4".toList, "v1.42.3".toList, "v1.42.2".toList,
       "v1.42.1".toList, "v1.42.0".toList,
       "v1.41.5".toList, "v1.41.4".toList, "v1.41.3".toList, "v1.41.2".toList,
       "v1.41.1".toList, "v1.41.0".toList, "v1.40.5".toList, "v1.40.4".toList,
       "v1.40.3".toList, "v1.40.2".toList, "v1.40.1".toList, "v1.40.0".toList,
       "v1.39.5".toList, "v1.39.4".toList, "v1.39.3".toList, "v1.39.2".toList,
       "v1.39.1".toList, "v1.39.0".toList]
      (by decide)
      (by
        rintro x _ ⟨v, hv, _⟩
        simp [GetKubernetesVersion, notServed] at hv))

/-! ## `buildDependencyConfig` -/

/-- C12: when the four fetches for the tool packages succeed, `buildDependencyConfig`
returns six entries: the four tool packages in the order of the source, each with the
version fetched for it and no branch, then `github.com/openshift/api` and
`github.com/openshift/library-go`, each with the branch `release-` followed by the
OpenShift version and no version. -/
theorem C12_buildDependencyConfig (get : Str → HttpResult)
    (repo branch openshiftVersion v1 v2 v3 v4 : Str)
    (h1 : GetKubernetesVersion get repo branch "sigs.k8s.io/controller-runtime".toList = .ok v1)
    (h2 : GetKubernetesVersion get repo branch "github.com/operator-framework/api".toList =
      .ok v2)
    (h3 : GetKubernetesVersion get repo branch
      "github.com/operator-framework/operator-registry".toList = .ok v3)
    (h4 : GetKubernetesVersion get repo branch "sigs.k8s.io/controller-tools".toList = .ok v4) :
    (buildDependencyConfig get repo branch openshiftVersion).1 =
      .ok ⟨[⟨"sigs.k8s.io/controller-runtime".toList, v1, []⟩,
        ⟨"github.com/operator-framework/api".toList, v2, []⟩,
        ⟨"github.com/operator-framework/operator-registry".toList, v3, []⟩,
        ⟨"sigs.k8s.io/controller-tools".toList, v4, []⟩,
        ⟨"github.com/openshift/api".toList, [], "release-".toList ++ openshiftVersion⟩,
        ⟨"github.com/openshift/library-go".toList, [],
          "release-".toList ++ openshiftVersion⟩]⟩ := by
  unfold buildDependencyConfig toolPackages openshiftPackages
  simp only [fetchDependencies, h1, h2, h3, h4, List.map_cons, List.map_nil, List.cons_append,
    List.nil_append]

/-- C12 at the tag `v1.39.0` of the SDK on a server that serves `sampleGoMod`. -/
theorem C12_witness :
    (buildDependencyConfig (serve sampleGoMod) sdkRepo "v1.39.0".toList "4.18".toList).1 =
      .ok ⟨[⟨"sigs.k8s.io/controller-runtime".toList, "v0.19.7".toList, []⟩,
        ⟨"github.com/operator-framework/api".toList, "v0.27.0".toList, []⟩,
        ⟨"github.com/operator-framework/operator-registry".toList, "v1.49.0".toList, []⟩,
        ⟨"sigs.k8s.io/controller-tools".toList, "v0.16.5".toList, []⟩,
        ⟨"github.com/openshift/api".toList, [], "release-".toList ++ "4.18".toList⟩,
        ⟨"github.com/openshift/library-go".toList, [],
          "release-".toList ++ "4.18".toList⟩]⟩ :=
  C12_buildDependencyConfig (serve sampleGoMod) sdkRepo "v1.39.0".toList "4.18".toList
    "v0.19.7".toList "v0.27.0".toList "v1.49.0".toList "v0.16.5".toList
    (by decide) (by decide) (by decide) (by decide)

/-! ## The error of `hasSameMinorVersion` in `findMatchingOperatorSDKConfig` -/

theorem hasSameMinorVersion_error_false (v1 v2 : Str) (e : GoError)
    (h : (hasSameMinorVersion v1 v2).2 = some e) : (hasSameMinorVersion v1 v2).1 = false := by
  revert h
  unfold hasSameMinorVersion
  generalize Split (TrimPrefix v1 "v".toList) '.' = p1
  generalize Split (TrimPrefix v2 "v".toList) '.' = p2
  rcases p1 with _ | ⟨a1, _ | ⟨b1, r1⟩⟩ <;> rcases p2 with _ | ⟨a2, _ | ⟨b2, r2⟩⟩ <;> simp
  generalize Atoi a1 = x1
  generalize Atoi b1 = y1
  generalize Atoi a2 = x2
  generalize Atoi b2 = y2
  have hlen : ¬ (r1.length + 1 + 1 < 2 ∨ r2.length + 1 + 1 < 2) := by omega
  cases x1 <;> cases y1 <;> cases x2 <;> cases y2 <;> simp [hlen]

theorem matchLoop_error (get : Str → HttpResult)
    (k8sVersionUsedByOpenshift openshiftVersion : Str) (candidates : List Str) (e : GoError)
    (h : (matchLoop get k8sVersionUsedByOpenshift openshiftVersion candidates).1 = .error e) :
    e = .errorf ("no matching operator-sdk version found for Kubernetes ".toList ++
        k8sVersionUsedByOpenshift) ∨
      ∃ cause, e = .wrapped "error building config".toList cause := by
  induction candidates with
  | nil =>
    rw [matchLoop] at h
    injection h with h
    exact Or.inl h.symm
  | cons x xs ih =>
    rw [matchLoop] at h
    cases hg : GetKubernetesVersion get sdkRepo x "k8s.io/api".toList with
    | error e1 =>
      rw [hg] at h
      exact ih h
    | ok v =>
      rw [hg] at h
      by_cases hs : (hasSameMinorVersion v k8sVersionUsedByOpenshift).1 = true
      · simp only [hs, if_true] at h
        cases hb : (buildDependencyConfig get sdkRepo x openshiftVersion).1 with
        | error e2 =>
          rw [hb] at h
          injection h with h
          exact Or.inr ⟨e2, h.symm⟩
        | ok config =>
          rw [hb] at h
          cases h
      · simp only [hs, Bool.false_eq_true, if_false] at h
        exact ih h

theorem Atoi_error (s : Str) (e : GoError) (h : Atoi s = .error e) :
    ∃ num r, e = .atoi num r := by
  revert h
  unfold Atoi
  simp only []
  generalize (if s.head? == some '-' ∨ s.head? == some '+' then s.tail else s) = body
  generalize (s.head? == some '-') = neg
  intro h
  by_cases h0 : body.isEmpty = true
  · simp only [h0, if_true] at h
    injection h with h
    exact ⟨_, _, h.symm⟩
  · cases hp : parseDigits 0 body with
    | error b =>
      simp only [h0, hp] at h
      injection h with h
      exact ⟨_, _, h.symm⟩
    | ok k =>
      simp only [h0, hp] at h
      cases neg <;> simp at h <;> split at h <;> simp at h <;> exact ⟨_, _, h.symm⟩

theorem generateVersions_error (a b : Str) (e : GoError)
    (h : generateVersions a b = .error e) : ∃ num r, e = .atoi num r := by
  unfold generateVersions at h
  cases ha : Atoi a with
  | error e1 =>
    rw [ha] at h
    injection h with h
    subst h
    exact Atoi_error a _ ha
  | ok major =>
    rw [ha] at h
    cases hb : Atoi b with
    | error e1 =>
      rw [hb] at h
      injection h with h
      subst h
      exact Atoi_error b _ hb
    | ok minor =>
      rw [hb] at h
      cases h

theorem generateCandidateSdkVersions_error (currentVersion : Str) (e : GoError)
    (h : generateCandidateSdkVersions currentVersion = .error e) :
    e = .errorf "invalid operator-sdk version format".toList ∨ ∃ num r, e = .atoi num r := by
  unfold generateCandidateSdkVersions at h
  by_cases hl : (Split (TrimPrefix currentVersion "v".toList) '.').length ≠ 3
  · rw [if_pos hl] at h
    injection h with h
    exact Or.inl h.symm
  · rw [if_neg hl] at h
    exact Or.inr (generateVersions_error _ _ e h)

/-- C13, as amended: `findMatchingOperatorSDKConfig` discards the error of
`hasSameMinorVersion`. A candidate that is fetched and for which `hasSameMinorVersion`
fails is passed over like a candidate whose fetch fails: the loop goes on with the
candidates that remain. The two format errors of `hasSameMinorVersion` are never the
result of `findMatchingOperatorSDKConfig`. -/
theorem C13_matcher_error_discarded :
    (∀ (get : Str → HttpResult) (k8sVersionUsedByOpenshift openshiftVersion version : Str)
        (rest : List Str) (k8sVersionUsedBySdk : Str) (e : GoError),
      GetKubernetesVersion get sdkRepo version "k8s.io/api".toList = .ok k8sVersionUsedBySdk →
      (hasSameMinorVersion k8sVersionUsedBySdk k8sVersionUsedByOpenshift).2 = some e →
      matchLoop get k8sVersionUsedByOpenshift openshiftVersion (version :: rest) =
        ((matchLoop get k8sVersionUsedByOpenshift openshiftVersion rest).1,
          goModPath sdkRepo version ::
            (matchLoop get k8sVersionUsedByOpenshift openshiftVersion rest).2)) ∧
    (∀ (get : Str → HttpResult)
        (k8sVersionUsedByOpenshift currentOperatorSdkVersion openshiftVersion : Str),
      (findMatchingOperatorSDKConfig get k8sVersionUsedByOpenshift currentOperatorSdkVersion
          openshiftVersion).1 ≠ .error (.errorf "invalid version format".toList) ∧
      (findMatchingOperatorSDKConfig get k8sVersionUsedByOpenshift currentOperatorSdkVersion
          openshiftVersion).1 ≠ .error (.errorf "invalid version numbers".toList)) := by
  constructor
  · intro get k8s osv version rest v e hv he
    have hfalse := hasSameMinorVersion_error_false v k8s e he
    rw [matchLoop]
    simp only [hv, hfalse, Bool.false_eq_true, if_false]
  · intro get k8s cur osv
    have key : ∀ e, (findMatchingOperatorSDKConfig get k8s cur osv).1 = .error e →
        e = .errorf "invalid operator-sdk version format".toList ∨
        (∃ num r, e = .atoi num r) ∨
        e = .errorf ("no matching operator-sdk version found for Kubernetes ".toList ++ k8s) ∨
        ∃ cause, e = .wrapped "error building config".toList cause := by
      intro e he
      unfold findMatchingOperatorSDKConfig at he
      cases hgen : generateCandidateSdkVersions cur with
      | ok candidates =>
        rw [hgen] at he
        rcases matchLoop_error get k8s osv candidates e he with h | h
        · exact Or.inr (Or.inr (Or.inl h))
        · exact Or.inr (Or.inr (Or.inr h))
      | error e1 =>
        rw [hgen] at he
        injection he with he
        subst he
        rcases generateCandidateSdkVersions_error cur e1 hgen with h | h
        · exact Or.inl h
        · exact Or.inr (Or.inl h)
    constructor
    · intro h
      rcases key _ h with h | ⟨_, _, h⟩ | h | ⟨_, h⟩
      · exact absurd h (by decide)
      · cases h
      · injection h with h
        have := congrArg List.head? h
        simp at this
      · cases h
    · intro h
      rcases key _ h with h | ⟨_, _, h⟩ | h | ⟨_, h⟩
      · exact absurd h (by decide)
      · cases h
      · injection h with h
        have := congrArg List.head? h
        simp at this
      · cases h

/-- C13 at the candidate `v1.42.5`, served with `sampleGoMod`, and the platform version
`v0`, for which `hasSameMinorVersion` fails. -/
theorem C13_witness :
    matchLoop (serve sampleGoMod) "v0".toList "4.18".toList ["v1.42.5".toList] =
      ((matchLoop (serve sampleGoMod) "v0".toList "4.18".toList []).1,
        goModPath sdkRepo "v1.42.5".toList ::
          (matchLoop (serve sampleGoMod) "v0".toList "4.18".toList []).2) :=
  C13_matcher_error_discarded.1 (serve sampleGoMod) "v0".toList "4.18".toList
    "v1.42.5".toList [] "v0.31.0".toList (.errorf "invalid version format".toList)
    (by decide) (by decide)

/-- C13, as stated, fails: with the platform version `v0`, `hasSameMinorVersion` fails
with a format error for the version `v0.31.0` fetched for every candidate, and
`findMatchingOperatorSDKConfig` returns the no-match error, not that format error. -/
theorem C13_counterexample :
    GetKubernetesVersion (serve sampleGoMod) sdkRepo "v1.42.5".toList "k8s.io/api".toList =
      .ok "v0.31.0".toList ∧
    hasSameMinorVersion "v0.31.0".toList "v0".toList =
      (false, some (.errorf "invalid version format".toList)) ∧
    (findMatchingOperatorSDKConfig (serve sampleGoMod) "v0".toList "v1.39.0".toList
        "4.18".toList).1 =
      .error (.errorf "no matching operator-sdk version found for Kubernetes v0".toList) := by
  decide

/-! ## `upgradePackage` -/

theorem upgradePackage_of_installed {σ : Type} (go : GoCommand σ)
    (projectPath packageName targetVersion installed : Str) (s s1 : σ)
    (h : getPackageVersion go projectPath packageName s = (.ok installed, s1)) :
    upgradePackage go projectPath packageName targetVersion s =
      if strLess installed targetVersion then
        match go.Run projectPath (getArgs packageName targetVersion) s1 with
        | (some e, s2) =>
          (some (.wrapped ("error upgrading dependency ".toList ++ packageName) e),
            [getArgs packageName targetVersion], s2)
        | (none, s2) =>
          match go.Run projectPath tidyArgs s2 with
          | (some e, s3) =>
            (some (.wrapped "error running go mod tidy".toList e),
              [getArgs packageName targetVersion, tidyArgs], s3)
          | (none, s3) => (none, [getArgs packageName targetVersion, tidyArgs], s3)
      else (none, [], s1) := by
  unfold upgradePackage getArgs tidyArgs
  rw [h]

/-- C14, as amended. When the installed version is read: if it is not below the target
under the plain string comparison, `upgradePackage` runs no command and returns no
error; if it is below, `upgradePackage` runs `go get package@target` first, returns its
error without running `go mod tidy` when it fails, and runs `go mod tidy` next when it
succeeds. So `go get` is run exactly when the installed version is below the target.
With `v0.19.3` installed and the target `v0.19.3`, and with `v0.9.0` installed and the
target `v0.10.0`, no command is run. -/
theorem C14_upgradePackage_decision :
    (∀ (σ : Type) (go : GoCommand σ) (projectPath packageName targetVersion installed : Str)
        (s s1 : σ),
      getPackageVersion go projectPath packageName s = (.ok installed, s1) →
      (strLess installed targetVersion = false →
        upgradePackage go projectPath packageName targetVersion s = (none, [], s1)) ∧
      (strLess installed targetVersion = true →
        (∀ e s2, go.Run projectPath (getArgs packageName targetVersion) s1 = (some e, s2) →
          upgradePackage go projectPath packageName targetVersion s =
            (some (.wrapped ("error upgrading dependency ".toList ++ packageName) e),
              [getArgs packageName targetVersion], s2)) ∧
        (∀ s2, go.Run projectPath (getArgs packageName targetVersion) s1 = (none, s2) →
          upgradePackage go projectPath packageName targetVersion s =
            ((go.Run projectPath tidyArgs s2).1.map
                (GoError.wrapped "error running go mod tidy".toList),
              [getArgs packageName targetVersion, tidyArgs],
              (go.Run projectPath tidyArgs s2).2))) ∧
      ((upgradePackage go projectPath packageName targetVersion s).2.1.head? =
          some (getArgs packageName targetVersion) ↔
        strLess installed targetVersion = true)) ∧
    upgradePackage
        (sampleGo [⟨"sigs.k8s.io/controller-runtime".toList, "v0.19.3".toList⟩] none none)
        "/path/to/project".toList "sigs.k8s.io/controller-runtime".toList "v0.19.3".toList [] =
      (none, [], [["mod".toList, "edit".toList, "-json".toList]]) ∧
    upgradePackage
        (sampleGo [⟨"sigs.k8s.io/controller-runtime".toList, "v0.9.0".toList⟩] none none)
        "/path/to/project".toList "sigs.k8s.io/controller-runtime".toList "v0.10.0".toList [] =
      (none, [], [["mod".toList, "edit".toList, "-json".toList]]) := by
  refine ⟨?_, by decide, by decide⟩
  intro σ go projectPath packageName targetVersion installed s s1 h
  have hup := upgradePackage_of_installed go projectPath packageName targetVersion installed
    s s1 h
  refine ⟨?_, ?_, ?_⟩
  · intro hl
    rw [hup, hl]
    rfl
  · intro hl
    constructor
    · intro e s2 hrun
      rw [hup, hl, hrun]
      rfl
    · intro s2 hrun
      rw [hup, hl, hrun]
      simp only [if_true]
      cases htidy : go.Run projectPath tidyArgs s2 with
      | mk r s3 => cases r <;> rfl
  · rw [hup]
    cases hl : strLess installed targetVersion with
    | false => simp
    | true =>
      simp only [if_true]
      cases hrun : go.Run projectPath (getArgs packageName targetVersion) s1 with
      | mk r s2 =>
        cases r with
        | some e => simp
        | none =>
          cases htidy : go.Run projectPath tidyArgs s2 with
          | mk r3 s3 => cases r3 <;> simp [htidy]

/-- C14 at `v0.19.2` installed and the target `v0.19.3`, with commands that succeed. -/
theorem C14_witness :
    upgradePackage
        (sampleGo [⟨"sigs.k8s.io/controller-runtime".toList, "v0.19.2".toList⟩] none none)
        "/path/to/project".toList "sigs.k8s.io/controller-runtime".toList "v0.19.3".toList [] =
      (none,
        [getArgs "sigs.k8s.io/controller-runtime".toList "v0.19.3".toList, tidyArgs],
        [["mod".toList, "edit".toList, "-json".toList],
          getArgs "sigs.k8s.io/controller-runtime".toList "v0.19.3".toList, tidyArgs]) :=
  ((C14_upgradePackage_decision.1 (List (List Str))
    (sampleGo [⟨"sigs.k8s.io/controller-runtime".toList, "v0.19.2".toList⟩] none none)
    "/path/to/project".toList "sigs.k8s.io/controller-runtime".toList "v0.19.3".toList
    "v0.19.2".toList [] [["mod".toList, "edit".toList, "-json".toList]] (by decide)).2.1
      (by decide)).2
    [["mod".toList, "edit".toList, "-json".toList],
      getArgs "sigs.k8s.io/controller-runtime".toList "v0.19.3".toList] (by decide)

/-- C14, as stated, fails: with `v0.19.2` installed, the target `v0.19.3` and a `go get`
that fails, the installed version is below the target and `upgradePackage` runs
`go get` only, not `go mod tidy`. -/
theorem C14_counterexample :
    strLess "v0.19.2".toList "v0.19.3".toList = true ∧
    upgradePackage
        (sampleGo [⟨"sigs.k8s.io/controller-runtime".toList, "v0.19.2".toList⟩]
          (some (.external "failed to run go get".toList)) none)
        "/path/to/project".toList "sigs.k8s.io/controller-runtime".toList "v0.19.3".toList [] =
      (some (.wrapped "error upgrading dependency sigs.k8s.io/controller-runtime".toList
          (.external "failed to run go get".toList)),
        [["get".toList, "sigs.k8s.io/controller-runtime@v0.19.3".toList]],
        [["mod".toList, "edit".toList, "-json".toList],
          ["get".toList, "sigs.k8s.io/controller-runtime@v0.19.3".toList]]) := by
  decide

/-! ## A package that the module does not require -/

theorem findRequire_none (packageName : Str) (require : List Package)
    (h : ∀ pkg ∈ require, pkg.Path ≠ packageName) : findRequire packageName require = none := by
  induction require with
  | nil => rfl
  | cons pkg rest ih =>
    rw [findRequire, if_neg (h pkg (List.mem_cons_self _ _))]
    exact ih (fun q hq => h q (List.mem_cons_of_mem _ hq))

theorem upgradePackage_of_missing {σ : Type} (go : GoCommand σ)
    (projectPath packageName targetVersion : Str) (s s1 : σ)
    (h : getPackageVersion go projectPath packageName s =
      (.error (.packageNotFound packageName), s1)) :
    upgradePackage go projectPath packageName targetVersion s = (none, [], s1) := by
  unfold upgradePackage
  rw [h]
  rfl

/-- C15: when `go mod edit -json` succeeds and its output decodes to a module that does
not require `packageName`, `getPackageVersion` fails with the error that wraps
`ErrPackageNotFound`, and `upgradePackage` returns no error and runs no command; the
loop of `Upgrade` then goes on with the dependencies that remain, for a dependency
pinned to a version and for one pinned to a branch that is resolved. -/
theorem C15_missing_package_skipped (σ : Type) (go : GoCommand σ)
    (projectPath packageName output : Str) (module : Module) (s s1 : σ)
    (hout : go.Output projectPath ["mod".toList, "edit".toList, "-json".toList] s =
      ((output, none), s1))
    (hdecode : go.Unmarshal output = .ok module)
    (hmissing : ∀ pkg ∈ module.Require, pkg.Path ≠ packageName) :
    getPackageVersion go projectPath packageName s =
      (.error (.packageNotFound packageName), s1) ∧
    isPackageNotFound (.packageNotFound packageName) = true ∧
    (∀ targetVersion,
      upgradePackage go projectPath packageName targetVersion s = (none, [], s1)) ∧
    (∀ (lsRemote : Str → Str → Str × Option GoError) (getCommit : Str → CommitResponse)
        (version : Str) (rest : List Dependency),
      version ≠ [] →
      upgradeLoop go lsRemote getCommit projectPath (⟨packageName, version, []⟩ :: rest) s =
        upgradeLoop go lsRemote getCommit projectPath rest s1) ∧
    (∀ (lsRemote : Str → Str → Str × Option GoError) (getCommit : Str → CommitResponse)
        (branch targetVersion : Str) (rest : List Dependency),
      branch ≠ [] →
      getVersionWithCommitHashForBranch lsRemote getCommit packageName branch =
        .ok targetVersion →
      upgradeLoop go lsRemote getCommit projectPath (⟨packageName, [], branch⟩ :: rest) s =
        upgradeLoop go lsRemote getCommit projectPath rest s1) := by
  have hget : getPackageVersion go projectPath packageName s =
      (.error (.packageNotFound packageName), s1) := by
    unfold getPackageVersion
    rw [hout]
    simp only [hdecode, findRequire_none packageName module.Require hmissing]
  have hup := fun targetVersion =>
    upgradePackage_of_missing go projectPath packageName targetVersion s s1 hget
  refine ⟨hget, rfl, hup, ?_, ?_⟩
  · intro lsRemote getCommit version rest hv
    rw [upgradeLoop]
    have hp : processDependency go lsRemote getCommit projectPath ⟨packageName, version, []⟩ s =
        (.ok (), [], s1) := by
      unfold processDependency
      simp [hv, hup]
    rw [hp]
    simp
  · intro lsRemote getCommit branch targetVersion rest hb hres
    rw [upgradeLoop]
    have hp : processDependency go lsRemote getCommit projectPath ⟨packageName, [], branch⟩ s =
        (.ok (), [], s1) := by
      unfold processDependency
      simp [hb, hres, hup]
    rw [hp]
    simp

/-- C15 at a module that requires `sigs.k8s.io/controller-runtime` only, and the package
`github.com/openshift/api`. -/
theorem C15_witness :
    upgradePackage
        (sampleGo [⟨"sigs.k8s.io/controller-runtime".toList, "v0.19.3".toList⟩] none none)
        "/path/to/project".toList "github.com/openshift/api".toList
        "v0.0.0-20250410062700-d6c84c55a124".toList [] =
      (none, [], [["mod".toList, "edit".toList, "-json".toList]]) :=
  (C15_missing_package_skipped (List (List Str))
    (sampleGo [⟨"sigs.k8s.io/controller-runtime".toList, "v0.19.3".toList⟩] none none)
    "/path/to/project".toList "github.com/openshift/api".toList []
    ⟨[⟨"sigs.k8s.io/controller-runtime".toList, "v0.19.3".toList⟩]⟩ []
    [["mod".toList, "edit".toList, "-json".toList]] rfl rfl (by decide)).2.2.1
    "v0.0.0-20250410062700-d6c84c55a124".toList

/-! ## `Upgrade` -/

theorem validateAll_none (deps : List Dependency) (h : validateAll deps = none) :
    ∀ d ∈ deps, validateDependency d = none := by
  induction deps with
  | nil => intro d hd; simp at hd
  | cons x xs ih =>
    intro d hd
    rw [validateAll] at h
    cases hx : validateDependency x with
    | some e => rw [hx] at h; cases h
    | none =>
      rw [hx] at h
      rcases List.mem_cons.mp hd with hd | hd
      · rw [hd]; exact hx
      · exact ih h d hd

theorem parseConfig_ok (readConfig : Str → Except GoError Config) (configPath : Str)
    (config : Config) (h : parseConfig readConfig configPath = .ok config) :
    ∀ d ∈ config.Dependencies, validateDependency d = none := by
  unfold parseConfig at h
  cases hr : readConfig configPath with
  | error e => rw [hr] at h; cases h
  | ok c =>
    rw [hr] at h
    simp only [] at h
    cases hv : validateAll c.Dependencies with
    | some e => rw [hv] at h; cases h
    | none =>
      rw [hv] at h
      injection h with h
      subst h
      exact validateAll_none _ hv

theorem upgradeLoop_of_processed {σ : Type} (go : GoCommand σ)
    (lsRemote : Str → Str → Str × Option GoError) (getCommit : Str → CommitResponse)
    (projectPath : Str) (deps : List Dependency) (s s1 : σ) (log : List (List Str))
    (h : ProcessedInOrder go lsRemote getCommit projectPath deps s log s1) :
    upgradeLoop go lsRemote getCommit projectPath deps s = (.ok (), log, s1) := by
  induction h with
  | nil s => rfl
  | cons d rest s s1 s2 log logRest hfirst _ ih =>
    rw [upgradeLoop, hfirst]
    simp only [ih]

theorem upgradeLoop_stops {σ : Type} (go : GoCommand σ)
    (lsRemote : Str → Str → Str × Option GoError) (getCommit : Str → CommitResponse)
    (projectPath : Str) (before : List Dependency) (d : Dependency) (after : List Dependency)
    (s s1 s2 : σ) (logBefore logD : List (List Str)) (stop : Outcome Unit)
    (hbefore : ProcessedInOrder go lsRemote getCommit projectPath before s logBefore s1)
    (hd : processDependency go lsRemote getCommit projectPath d s1 = (stop, logD, s2))
    (hstop : stop ≠ .ok ()) :
    upgradeLoop go lsRemote getCommit projectPath (before ++ d :: after) s =
      (stop, logBefore ++ logD, s2) := by
  induction hbefore with
  | nil s =>
    simp only [List.nil_append]
    rw [upgradeLoop, hd]
    cases stop with
    | ok u => exact absurd rfl hstop
    | err e => rfl
    | panic => rfl
    | notText => rfl
  | cons x rest s sx s1 log logRest hfirst _ ih =>
    simp only [List.cons_append]
    rw [upgradeLoop, hfirst]
    simp only [ih hd, List.append_assoc]

theorem upgradeLoop_first_failure {σ : Type} (go : GoCommand σ)
    (lsRemote : Str → Str → Str × Option GoError) (getCommit : Str → CommitResponse)
    (projectPath : Str) (deps : List Dependency) :
    ∀ s : σ,
      (∃ log s1, ProcessedInOrder go lsRemote getCommit projectPath deps s log s1) ∨
      (∃ before d after logBefore s1 stop logD s2,
        deps = before ++ d :: after ∧
        ProcessedInOrder go lsRemote getCommit projectPath before s logBefore s1 ∧
        processDependency go lsRemote getCommit projectPath d s1 = (stop, logD, s2) ∧
        stop ≠ .ok ()) := by
  induction deps with
  | nil => intro s; exact Or.inl ⟨[], s, .nil s⟩
  | cons d rest ih =>
    intro s
    rcases hp : processDependency go lsRemote getCommit projectPath d s with ⟨r, log, s1⟩
    by_cases hr : r = .ok ()
    · subst hr
      rcases ih s1 with ⟨log2, s2, h2⟩ | ⟨before, d2, after, logBefore, s2, stop, logD, s3,
        hsplit, hbefore, hd2, hne⟩
      · exact Or.inl ⟨log ++ log2, s2, .cons d rest s s1 s2 log log2 hp h2⟩
      · right
        refine ⟨d :: before, d2, after, log ++ logBefore, s2, stop, logD, s3, ?_,
          .cons d before s s1 s2 log logBefore hp hbefore, hd2, hne⟩
        rw [hsplit]
        rfl
    · exact Or.inr ⟨[], d, rest, [], s, r, log, s1, rfl, .nil s, hp, hr⟩

/-- C16. `Upgrade` returns the error of `parseConfig` without running a command. On a
configuration that `parseConfig` accepts, every dependency is valid, and: when all
dependencies are processed in order without error, `Upgrade` returns no error, with
their commands in order; when the dependencies before one are processed in order
without error and that one does not end well, `Upgrade` ends as that dependency does
(with its error), with the commands run up to there and in the state of the module
directory that this dependency leaves, whatever dependencies come after it; and one of
the two is the case. A dependency pinned to a version ends as `upgradePackage` does; one
pinned to a branch ends with the error of the branch resolution, before any command, or
as `upgradePackage` does for the resolved version. `upgradePackage` returns the error of
`getPackageVersion` when that is not the absence of the package, the error of `go get`
without running `go mod tidy`, and the error of `go mod tidy`. -/
theorem C16_upgrade_stops_at_first_failure (σ : Type)
    (readConfig : Str → Except GoError Config) (go : GoCommand σ)
    (lsRemote : Str → Str → Str × Option GoError) (getCommit : Str → CommitResponse)
    (configPath projectPath : Str) (s : σ) :
    (∀ e, parseConfig readConfig configPath = .error e →
      Upgrade readConfig go lsRemote getCommit configPath projectPath s = (.err e, [], s)) ∧
    (∀ config, parseConfig readConfig configPath = .ok config →
      (∀ d ∈ config.Dependencies, validateDependency d = none) ∧
      (∀ log s1,
        ProcessedInOrder go lsRemote getCommit projectPath config.Dependencies s log s1 →
        Upgrade readConfig go lsRemote getCommit configPath projectPath s =
          (.ok (), log, s1)) ∧
      (∀ before d after logBefore s1 stop logD s2,
        config.Dependencies = before ++ d :: after →
        ProcessedInOrder go lsRemote getCommit projectPath before s logBefore s1 →
        processDependency go lsRemote getCommit projectPath d s1 = (stop, logD, s2) →
        stop ≠ .ok () →
        Upgrade readConfig go lsRemote getCommit configPath projectPath s =
          (stop, logBefore ++ logD, s2)) ∧
      ((∃ log s1,
          ProcessedInOrder go lsRemote getCommit projectPath config.Dependencies s log s1) ∨
        (∃ before d after logBefore s1 stop logD s2,
          config.Dependencies = before ++ d :: after ∧
          ProcessedInOrder go lsRemote getCommit projectPath before s logBefore s1 ∧
          processDependency go lsRemote getCommit projectPath d s1 = (stop, logD, s2) ∧
          stop ≠ .ok ()))) ∧
    (∀ (d : Dependency) (s0 : σ), d.Version ≠ [] → d.Branch = [] →
      processDependency go lsRemote getCommit projectPath d s0 =
        (toOutcome (upgradePackage go projectPath d.Package d.Version s0).1,
          (upgradePackage go projectPath d.Package d.Version s0).2.1,
          (upgradePackage go projectPath d.Package d.Version s0).2.2)) ∧
    (∀ (d : Dependency) (s0 : σ), d.Version = [] → d.Branch ≠ [] →
      (∀ e, getVersionWithCommitHashForBranch lsRemote getCommit d.Package d.Branch = .err e →
        processDependency go lsRemote getCommit projectPath d s0 = (.err e, [], s0)) ∧
      (∀ targetVersion,
        getVersionWithCommitHashForBranch lsRemote getCommit d.Package d.Branch =
          .ok targetVersion →
        processDependency go lsRemote getCommit projectPath d s0 =
          (toOutcome (upgradePackage go projectPath d.Package targetVersion s0).1,
            (upgradePackage go projectPath d.Package targetVersion s0).2.1,
            (upgradePackage go projectPath d.Package targetVersion s0).2.2))) ∧
    (∀ (packageName targetVersion : Str) (s0 s1 : σ) (e : GoError),
      getPackageVersion go projectPath packageName s0 = (.error e, s1) →
      isPackageNotFound e = false →
      upgradePackage go projectPath packageName targetVersion s0 = (some e, [], s1)) ∧
    (∀ (packageName targetVersion installed : Str) (s0 s1 s2 : σ) (e : GoError),
      getPackageVersion go projectPath packageName s0 = (.ok installed, s1) →
      strLess installed targetVersion = true →
      go.Run projectPath (getArgs packageName targetVersion) s1 = (some e, s2) →
      upgradePackage go projectPath packageName targetVersion s0 =
        (some (.wrapped ("error upgrading dependency ".toList ++ packageName) e),
          [getArgs packageName targetVersion], s2)) ∧
    (∀ (packageName targetVersion installed : Str) (s0 s1 s2 s3 : σ) (e : GoError),
      getPackageVersion go projectPath packageName s0 = (.ok installed, s1) →
      strLess installed targetVersion = true →
      go.Run projectPath (getArgs packageName targetVersion) s1 = (none, s2) →
      go.Run projectPath tidyArgs s2 = (some e, s3) →
      upgradePackage go projectPath packageName targetVersion s0 =
        (some (.wrapped "error running go mod tidy".toList e),
          [getArgs packageName targetVersion, tidyArgs], s3)) := by
  refine ⟨?_, ?_, ?_, ?_, ?_, ?_, ?_⟩
  · intro e h
    unfold Upgrade
    rw [h]
  · intro config h
    have hU : Upgrade readConfig go lsRemote getCommit configPath projectPath s =
        upgradeLoop go lsRemote getCommit projectPath config.Dependencies s := by
      unfold Upgrade
      rw [h]
    refine ⟨parseConfig_ok readConfig configPath config h, ?_, ?_, ?_⟩
    · intro log s1 hall
      rw [hU]
      exact upgradeLoop_of_processed go lsRemote getCommit projectPath _ s s1 log hall
    · intro before d after logBefore s1 stop logD s2 hsplit hbefore hd hstop
      rw [hU, hsplit]
      exact upgradeLoop_stops go lsRemote getCommit projectPath before d after s s1 s2
        logBefore logD stop hbefore hd hstop
    · exact upgradeLoop_first_failure go lsRemote getCommit projectPath config.Dependencies s
  · intro d s0 hv hb
    unfold processDependency
    rcases hup : upgradePackage go projectPath d.Package d.Version s0 with ⟨r, log, s1⟩
    cases r <;> simp [hv, hb, hup, toOutcome]
  · intro d s0 hv hb
    constructor
    · intro e hres
      unfold processDependency
      simp [hv, hb, hres]
    · intro targetVersion hres
      unfold processDependency
      rcases hup : upgradePackage go projectPath d.Package targetVersion s0 with ⟨r, log, s1⟩
      cases r <;> simp [hv, hb, hres, hup, toOutcome]
  · intro packageName targetVersion s0 s1 e h hnot
    unfold upgradePackage
    rw [h]
    simp [hnot]
  · intro packageName targetVersion installed s0 s1 s2 e h hless hrun
    rw [upgradePackage_of_installed go projectPath packageName targetVersion installed s0 s1 h,
      hless, hrun]
    rfl
  · intro packageName targetVersion installed s0 s1 s2 s3 e h hless hrun htidy
    rw [upgradePackage_of_installed go projectPath packageName targetVersion installed s0 s1 h,
      hless, hrun]
    simp only [if_true, htidy]

/-- C16 at `sampleConfig` on a module where `go get` fails: the first dependency is up to
date, `go get` fails for the second one, and nothing is run for the third one, although
it is out of date. -/
theorem C16_witness :
    Upgrade (fun _ => .ok sampleConfig)
        (sampleGo sampleRequire (some (.external "failed to run go get".toList)) none)
        sampleLsRemote sampleGetCommit "config.yaml".toList "/path/to/project".toList [] =
      (.err (.wrapped "error upgrading dependency github.com/openshift/api".toList
          (.external "failed to run go get".toList)),
        [] ++
          [getArgs "github.com/openshift/api".toList
            "v0.0.0-20250410062700-d6c84c55a124".toList],
        [["mod".toList, "edit".toList, "-json".toList],
          ["mod".toList, "edit".toList, "-json".toList],
          getArgs "github.com/openshift/api".toList
            "v0.0.0-20250410062700-d6c84c55a124".toList]) :=
  ((C16_upgrade_stops_at_first_failure (List (List Str)) (fun _ => .ok sampleConfig)
    (sampleGo sampleRequire (some (.external "failed to run go get".toList)) none)
    sampleLsRemote sampleGetCommit "config.yaml".toList "/path/to/project".toList []).2.1
    sampleConfig (by decide)).2.2.1
    [⟨"sigs.k8s.io/controller-runtime".toList, "v0.19.3".toList, []⟩]
    ⟨"github.com/openshift/api".toList, [], "release-4.18".toList⟩
    [⟨"sigs.k8s.io/controller-tools".toList, "v0.16.5".toList, []⟩]
    [] [["mod".toList, "edit".toList, "-json".toList]] _ _ _
    rfl
    (.cons _ [] [] [["mod".toList, "edit".toList, "-json".toList]]
      [["mod".toList, "edit".toList, "-json".toList]] [] [] (by decide) (.nil _))
    (by decide) (by decide)

/-! ## The generated configuration is valid -/

theorem mem_splitWhere_not_sep (p : Char → Bool) (s : Str) :
    ∀ f ∈ splitWhere p s, ∀ c ∈ f, p c = false := by
  induction s with
  | nil =>
    intro f hf c hc
    simp [splitWhere] at hf
    subst hf
    simp at hc
  | cons x xs ih =>
    intro f hf c hc
    unfold splitWhere at hf
    by_cases hx : p x = true
    · rw [if_pos hx] at hf
      rcases List.mem_cons.mp hf with hf | hf
      · subst hf; simp at hc
      · exact ih f hf c hc
    · rw [if_neg hx] at hf
      cases hs : splitWhere p xs with
      | nil =>
        rw [hs] at hf
        simp at hf
        subst hf
        simp at hc
        subst hc
        simpa using hx
      | cons piece pieces =>
        rw [hs] at hf
        rcases List.mem_cons.mp hf with hf | hf
        · subst hf
          rcases List.mem_cons.mp hc with hc | hc
          · subst hc; simpa using hx
          · exact ih piece (by rw [hs]; exact List.mem_cons_self _ _) c hc
        · exact ih f (by rw [hs]; exact List.mem_cons_of_mem _ hf) c hc

theorem mem_Fields_nonBlank (s f : Str) (h : f ∈ Fields s) : nonBlank f := by
  unfold Fields at h
  obtain ⟨hmem, hne⟩ := List.mem_filter.mp h
  have hnospace := mem_splitWhere_not_sep isSpace s f hmem
  have hf : f ≠ [] := by
    intro hnil
    subst hnil
    simp at hne
  refine ⟨hf, ?_⟩
  cases f with
  | nil => exact absurd rfl hf
  | cons c cs =>
    simp only [List.all_cons, hnospace c (List.mem_cons_self _ _), Bool.false_and]

theorem scanLoop_ok_field (pkg : Str) (lines : List Str) :
    ∀ inRequireBlock version, scanLoop pkg inRequireBlock lines = some (.ok version) →
      ∃ line, version ∈ Fields line := by
  induction lines with
  | nil => intro b v h; simp [scanLoop] at h
  | cons text rest ih =>
    intro b v h
    rw [scanLoop] at h
    split_ifs at h
    · exact ih _ _ h
    · exact ih _ _ h
    · split at h
      · rename_i f0 f1 more hfields
        injection h with h
        injection h with h
        subst h
        exact ⟨TrimSpace text, by rw [hfields]; simp⟩
      · injection h with h
        cases h
    · cases hfa : fieldAfter pkg (Fields (TrimSpace text)) with
      | some w =>
        rw [hfa] at h
        injection h with h
        injection h with h
        subst h
        have hz := fieldAfter_eq_some _ _ _ hfa
        exact ⟨TrimSpace text, List.mem_of_mem_tail (List.of_mem_zip hz).2⟩
      | none =>
        rw [hfa] at h
        exact ih _ _ h
    · exact ih _ _ h

theorem GetKubernetesVersion_nonBlank (get : Str → HttpResult) (repo branch pkg version : Str)
    (h : GetKubernetesVersion get repo branch pkg = .ok version) : nonBlank version := by
  unfold GetKubernetesVersion at h
  cases hg : get (goModPath repo branch) with
  | failed e => rw [hg] at h; cases h
  | response status body eofWithData =>
    rw [hg] at h
    simp only [] at h
    by_cases hs : status ≠ 200
    · rw [if_pos hs] at h; cases h
    · rw [if_neg hs] at h
      unfold scanGoMod at h
      cases hloop : scanLoop pkg false (scanLines body eofWithData).1 with
      | none =>
        rw [hloop] at h
        simp only [] at h
        split at h <;> cases h
      | some r =>
        rw [hloop] at h
        simp only [] at h
        subst h
        obtain ⟨line, hline⟩ := scanLoop_ok_field pkg _ false version hloop
        exact mem_Fields_nonBlank line version hline

theorem nonBlank_release (openshiftVersion : Str) :
    nonBlank ("release-".toList ++ openshiftVersion) := by
  constructor
  · simp
  · simp [isSpace]

theorem validateDependency_version (packageName version : Str) (h : nonBlank version) :
    validateDependency ⟨packageName, version, []⟩ = none := by
  have h2 := (nonBlank_iff version).mp h
  unfold validateDependency
  simp [h2.1, h2.2]

theorem validateDependency_branch (packageName branch : Str) (h : nonBlank branch) :
    validateDependency ⟨packageName, [], branch⟩ = none := by
  have h2 := (nonBlank_iff branch).mp h
  unfold validateDependency
  simp [h2.1, h2.2]

theorem fetchDependencies_valid (get : Str → HttpResult) (repo branch : Str)
    (packages : List Str) :
    ∀ deps, (fetchDependencies get repo branch packages).1 = .ok deps →
      ∀ d ∈ deps, validateDependency d = none := by
  induction packages with
  | nil =>
    intro deps h d hd
    simp [fetchDependencies] at h
    subst h
    simp at hd
  | cons pkg rest ih =>
    intro deps h d hd
    rw [fetchDependencies] at h
    cases hg : GetKubernetesVersion get repo branch pkg with
    | error e => rw [hg] at h; cases h
    | ok version =>
      rw [hg] at h
      simp only [] at h
      cases hn : (fetchDependencies get repo branch rest).1 with
      | error e => rw [hn] at h; cases h
      | ok more =>
        rw [hn] at h
        injection h with h
        subst h
        rcases List.mem_cons.mp hd with hd | hd
        · subst hd
          exact validateDependency_version pkg version
            (GetKubernetesVersion_nonBlank get repo branch pkg version hg)
        · exact ih more hn d hd

/-- C17: when `buildDependencyConfig` succeeds, `validateDependency` returns no error for
each entry of its result; a version that `GetKubernetesVersion` returns is non-blank,
and so is `release-` followed by any OpenShift version. -/
theorem C17_generated_config_is_valid :
    (∀ (get : Str → HttpResult) (repo branch openshiftVersion : Str) (config : Config),
      (buildDependencyConfig get repo branch openshiftVersion).1 = .ok config →
      ∀ d ∈ config.Dependencies, validateDependency d = none) ∧
    (∀ (get : Str → HttpResult) (repo branch pkg version : Str),
      GetKubernetesVersion get repo branch pkg = .ok version → nonBlank version) ∧
    (∀ openshiftVersion : Str, nonBlank ("release-".toList ++ openshiftVersion)) := by
  refine ⟨?_, GetKubernetesVersion_nonBlank, nonBlank_release⟩
  intro get repo branch openshiftVersion config h d hd
  unfold buildDependencyConfig at h
  simp only [] at h
  cases hf : (fetchDependencies get repo branch toolPackages).1 with
  | error e => rw [hf] at h; cases h
  | ok deps =>
    rw [hf] at h
    injection h with h
    subst h
    rcases List.mem_append.mp hd with hd | hd
    · exact fetchDependencies_valid get repo branch toolPackages deps hf d hd
    · obtain ⟨opPkg, _, rfl⟩ := List.mem_map.mp hd
      exact validateDependency_branch opPkg _ (nonBlank_release openshiftVersion)

/-- C17 at the configuration built from `sampleGoMod` for OpenShift 4.18: its first entry
and its fifth entry are valid. -/
theorem C17_witness :
    validateDependency ⟨"sigs.k8s.io/controller-runtime".toList, "v0.19.7".toList, []⟩ = none ∧
    validateDependency ⟨"github.com/openshift/api".toList, [], "release-4.18".toList⟩ = none :=
  have h := C17_generated_config_is_valid.1 (serve sampleGoMod) sdkRepo "v1.39.0".toList
    "4.18".toList
    ⟨[⟨"sigs.k8s.io/controller-runtime".toList, "v0.19.7".toList, []⟩,
      ⟨"github.com/operator-framework/api".toList, "v0.27.0".toList, []⟩,
      ⟨"github.com/operator-framework/operator-registry".toList, "v1.49.0".toList, []⟩,
      ⟨"sigs.k8s.io/controller-tools".toList, "v0.16.5".toList, []⟩,
      ⟨"github.com/openshift/api".toList, [], "release-4.18".toList⟩,
      ⟨"github.com/openshift/library-go".toList, [], "release-4.18".toList⟩]⟩
    (by decide)
  ⟨h _ (by decide), h _ (by decide)⟩

/-! ## The candidates for a current version -/

theorem digitChar_toNat (d : Nat) (h : d < 10) : (Nat.digitChar d).toNat = 48 + d := by
  interval_cases d <;> decide

theorem parseDigits_toDigitsCore (fuel : Nat) :
    ∀ (n : Nat) (ds : List Char), n < fuel → n ≤ maxUint64 →
      parseDigits 0 (Nat.toDigitsCore 10 fuel n ds) = parseDigits n ds := by
  induction fuel with
  | zero => intro n ds h; omega
  | succ fuel ih =>
    intro n ds hfuel hmax
    have hd : (Nat.digitChar (n % 10)).toNat = 48 + n % 10 :=
      digitChar_toNat (n % 10) (Nat.mod_lt _ (by decide))
    have hstep : ∀ acc, acc * 10 + n % 10 ≤ maxUint64 →
        parseDigits acc (Nat.digitChar (n % 10) :: ds) =
          parseDigits (acc * 10 + n % 10) ds := by
      intro acc hacc
      rw [parseDigits, hd]
      have : 48 ≤ 48 + n % 10 ∧ 48 + n % 10 ≤ 57 := by omega
      rw [if_pos this]
      have hfit : ¬ maxUint64 < acc * 10 + (48 + n % 10 - 48) := by omega
      rw [if_neg hfit]
      congr 1
      omega
    unfold Nat.toDigitsCore
    by_cases h0 : n / 10 = 0
    · simp only [h0, if_true]
      rw [hstep 0 (by omega)]
      congr 1
      omega
    · simp only [h0, if_false]
      rw [ih (n / 10) _ (by omega) (by omega), hstep (n / 10) (by omega)]
      congr 1
      omega

theorem parseDigits_toDigits (n : Nat) (hn : n ≤ maxUint64) :
    parseDigits 0 (Nat.toDigits 10 n) = .ok n := by
  unfold Nat.toDigits
  rw [parseDigits_toDigitsCore (n + 1) n [] (by omega) hn]
  rfl

theorem toDigitsCore_digits (fuel : Nat) :
    ∀ (n : Nat) (ds : List Char), (∀ c ∈ ds, 48 ≤ c.toNat ∧ c.toNat ≤ 57) →
      ∀ c ∈ Nat.toDigitsCore 10 fuel n ds, 48 ≤ c.toNat ∧ c.toNat ≤ 57 := by
  induction fuel with
  | zero => intro n ds h c hc; exact h c hc
  | succ fuel ih =>
    intro n ds h
    have hd : (Nat.digitChar (n % 10)).toNat = 48 + n % 10 :=
      digitChar_toNat (n % 10) (Nat.mod_lt _ (by decide))
    have hds : ∀ c ∈ Nat.digitChar (n % 10) :: ds, 48 ≤ c.toNat ∧ c.toNat ≤ 57 := by
      intro c hc
      rcases List.mem_cons.mp hc with hc | hc
      · rw [hc, hd]
        have := Nat.mod_lt n (show 10 > 0 by decide)
        omega
      · exact h c hc
    unfold Nat.toDigitsCore
    by_cases h0 : n / 10 = 0
    · simp only [h0, if_true]
      exact hds
    · simp only [h0, if_false]
      exact ih (n / 10) _ hds

theorem toDigits_digits (n : Nat) : ∀ c ∈ Nat.toDigits 10 n, 48 ≤ c.toNat ∧ c.toNat ≤ 57 :=
  toDigitsCore_digits (n + 1) n [] (by simp)

theorem toDigits_cons (n : Nat) :
    ∃ c rest, Nat.toDigits 10 n = c :: rest ∧ 48 ≤ c.toNat ∧ c.toNat ≤ 57 := by
  rcases Nat.eq_zero_or_pos n with h | h
  · subst h
    exact ⟨'0', [], by decide, by decide, by decide⟩
  · obtain ⟨c, rest, hc, h1, h2⟩ := toDigits_head n h
    exact ⟨c, rest, hc, by omega, h2⟩

theorem Atoi_digits (n : Nat) (hn : (n : Int) ≤ maxInt) :
    Atoi (Nat.toDigits 10 n) = .ok (n : Int) := by
  obtain ⟨c, rest, hc, h1, h2⟩ := toDigits_cons n
  have hp := parseDigits_toDigits n (by unfold maxInt at hn; unfold maxUint64; omega)
  rw [hc] at hp ⊢
  have hminus : c ≠ '-' := by
    intro h
    rw [h] at h1
    exact absurd h1 (by decide)
  have hplus : c ≠ '+' := by
    intro h
    rw [h] at h1
    exact absurd h1 (by decide)
  unfold Atoi
  simp [hminus, hplus, hp, hn]

theorem Atoi_minus_digits (n : Nat) (hn : (n : Int) ≤ 2 ^ 63) :
    Atoi ('-' :: Nat.toDigits 10 n) = .ok (-(n : Int)) := by
  obtain ⟨c, rest, hc, h1, h2⟩ := toDigits_cons n
  have hp := parseDigits_toDigits n (by unfold maxUint64; omega)
  rw [hc] at hp ⊢
  unfold Atoi
  simp [hp]
  norm_num at hn
  exact_mod_cast hn

theorem Atoi_fmtInt (x : Int) (h1 : minInt ≤ x) (h2 : x ≤ maxInt) :
    Atoi (fmtInt x) = .ok x := by
  unfold fmtInt
  unfold minInt at h1
  by_cases hx : x < 0
  · rw [if_pos hx, Atoi_minus_digits x.natAbs (by omega)]
    congr 1
    omega
  · rw [if_neg hx, Atoi_digits x.natAbs (by omega)]
    congr 1
    omega

theorem fmtInt_no_dot (x : Int) : ∀ c ∈ fmtInt x, (c == '.') = false := by
  have hd : ∀ c ∈ Nat.toDigits 10 x.natAbs, (c == '.') = false := by
    intro c hc
    have := toDigits_digits x.natAbs c hc
    simp only [beq_eq_false_iff_ne, ne_eq]
    intro h
    rw [h] at this
    exact absurd this.1 (by decide)
  unfold fmtInt
  intro c hc
  by_cases hx : x < 0
  · rw [if_pos hx] at hc
    rcases List.mem_cons.mp hc with hc | hc
    · rw [hc]; decide
    · exact hd c hc
  · rw [if_neg hx] at hc
    exact hd c hc

theorem splitWhere_append_sep (p : Char → Bool) (a : Str) (c : Char) (rest : Str)
    (ha : ∀ x ∈ a, p x = false) (hc : p c = true) :
    splitWhere p (a ++ c :: rest) = a :: splitWhere p rest := by
  induction a with
  | nil => simp [splitWhere, hc]
  | cons x xs ih =>
    have hx : p x = false := ha x (List.mem_cons_self _ _)
    have := ih (fun y hy => ha y (List.mem_cons_of_mem _ hy))
    simp only [List.cons_append]
    rw [splitWhere, this]
    simp [hx]

theorem Split_version (a b c : Str) (ha : ∀ x ∈ a, (x == '.') = false)
    (hb : ∀ x ∈ b, (x == '.') = false) (hc : ∀ x ∈ c, (x == '.') = false) :
    Split (TrimPrefix ("v".toList ++ a ++ ".".toList ++ b ++ ".".toList ++ c) "v".toList) '.' =
      [a, b, c] := by
  have htrim : TrimPrefix ("v".toList ++ a ++ ".".toList ++ b ++ ".".toList ++ c) "v".toList =
      a ++ '.' :: (b ++ '.' :: c) := by
    unfold TrimPrefix HasPrefix
    simp
  rw [htrim]
  unfold Split
  rw [splitWhere_append_sep _ a '.' _ ha (by decide),
    splitWhere_append_sep _ b '.' _ hb (by decide), splitWhere_of_none _ c hc]

theorem generateVersions_members (major minor : Int) (c : Str)
    (hc : c ∈
      [fmtVersion major (minor + 3) 5, fmtVersion major (minor + 3) 4,
       fmtVersion major (minor + 3) 3, fmtVersion major (minor + 3) 2,
       fmtVersion major (minor + 3) 1, fmtVersion major (minor + 3) 0,
       fmtVersion major (minor + 2) 5, fmtVersion major (minor + 2) 4,
       fmtVersion major (minor + 2) 3, fmtVersion major (minor + 2) 2,
       fmtVersion major (minor + 2) 1, fmtVersion major (minor + 2) 0,
       fmtVersion major (minor + 1) 5, fmtVersion major (minor + 1) 4,
       fmtVersion major (minor + 1) 3, fmtVersion major (minor + 1) 2,
       fmtVersion major (minor + 1) 1, fmtVersion major (minor + 1) 0,
       fmtVersion major minor 5, fmtVersion major minor 4,
       fmtVersion major minor 3, fmtVersion major minor 2,
       fmtVersion major minor 1, fmtVersion major minor 0]) :
    ∃ m p : Int, c = fmtVersion major m p ∧ minor ≤ m ∧ m ≤ minor + 3 ∧ 0 ≤ p ∧ p ≤ 5 := by
  simp only [List.mem_cons, List.mem_singleton, List.not_mem_nil, or_false] at hc
  rcases hc with rfl | rfl | rfl | rfl | rfl | rfl | rfl | rfl | rfl | rfl | rfl | rfl | rfl | rfl | rfl | rfl | rfl | rfl | rfl | rfl | rfl | rfl | rfl | rfl
  · exact ⟨minor + 3, 5, rfl, by omega, by omega, by omega, by omega⟩
  · exact ⟨minor + 3, 4, rfl, by omega, by omega, by omega, by omega⟩
  · exact ⟨minor + 3, 3, rfl, by omega, by omega, by omega, by omega⟩
  · exact ⟨minor + 3, 2, rfl, by omega, by omega, by omega, by omega⟩
  · exact ⟨minor + 3, 1, rfl, by omega, by omega, by omega, by omega⟩
  · exact ⟨minor + 3, 0, rfl, by omega, by omega, by omega, by omega⟩
  · exact ⟨minor + 2, 5, rfl, by omega, by omega, by omega, by omega⟩
  · exact ⟨minor + 2, 4, rfl, by omega, by omega, by omega, by omega⟩
  · exact ⟨minor + 2, 3, rfl, by omega, by omega, by omega, by omega⟩
  · exact ⟨minor + 2, 2, rfl, by omega, by omega, by omega, by omega⟩
  · exact ⟨minor + 2, 1, rfl, by omega, by omega, by omega, by omega⟩
  · exact ⟨minor + 2, 0, rfl, by omega, by omega, by omega, by omega⟩
  · exact ⟨minor + 1, 5, rfl, by omega, by omega, by omega, by omega⟩
  · exact ⟨minor + 1, 4, rfl, by omega, by omega, by omega, by omega⟩
  · exact ⟨minor + 1, 3, rfl, by omega, by omega, by omega, by omega⟩
  · exact ⟨minor + 1, 2, rfl, by omega, by omega, by omega, by omega⟩
  · exact ⟨minor + 1, 1, rfl, by omega, by omega, by omega, by omega⟩
  · exact ⟨minor + 1, 0, rfl, by omega, by omega, by omega, by omega⟩
  · exact ⟨minor, 5, rfl, by omega, by omega, by omega, by omega⟩
  · exact ⟨minor, 4, rfl, by omega, by omega, by omega, by omega⟩
  · exact ⟨minor, 3, rfl, by omega, by omega, by omega, by omega⟩
  · exact ⟨minor, 2, rfl, by omega, by omega, by omega, by omega⟩
  · exact ⟨minor, 1, rfl, by omega, by omega, by omega, by omega⟩
  · exact ⟨minor, 0, rfl, by omega, by omega, by omega, by omega⟩

/-- C18, as amended. For integers `major` and `minor` in the range of `int` with
`minor + 3` in that range too, there is one list of candidates that
`generateCandidateSdkVersions` returns for the version `v major.minor.patch`, written in
decimal, whatever the patch is (any text without a dot); every candidate is a version
with the major `major`, a minor from `minor` to `minor + 3` and a patch from 0 to 5; and
for a patch `p` from 0 to 5 the current version itself is one of the candidates. -/
theorem C18_candidates_of_current_version (major minor : Int)
    (hmajor : minInt ≤ major ∧ major ≤ maxInt) (hminor : minInt ≤ minor ∧ minor + 3 ≤ maxInt) :
    ∃ candidates,
      (∀ patch : Str, (∀ x ∈ patch, (x == '.') = false) →
        generateCandidateSdkVersions
          ("v".toList ++ fmtInt major ++ ".".toList ++ fmtInt minor ++ ".".toList ++ patch) =
          .ok candidates) ∧
      (∀ c ∈ candidates, ∃ m p : Int,
        c = fmtVersion major m p ∧ minor ≤ m ∧ m ≤ minor + 3 ∧ 0 ≤ p ∧ p ≤ 5) ∧
      (∀ p : Int, 0 ≤ p → p ≤ 5 →
        generateCandidateSdkVersions (fmtVersion major minor p) = .ok candidates ∧
        fmtVersion major minor p ∈ candidates) := by
  have hM := Atoi_fmtInt major hmajor.1 hmajor.2
  have hm := Atoi_fmtInt minor hminor.1 (by unfold maxInt at *; omega)
  have hgen := generateVersions_of_parsed (fmtInt major) (fmtInt minor) major minor hM hm
    hminor.2
  have hcur : ∀ patch : Str, (∀ x ∈ patch, (x == '.') = false) →
      generateCandidateSdkVersions
        ("v".toList ++ fmtInt major ++ ".".toList ++ fmtInt minor ++ ".".toList ++ patch) =
        generateVersions (fmtInt major) (fmtInt minor) := by
    intro patch hpatch
    unfold generateCandidateSdkVersions
    simp only [Split_version (fmtInt major) (fmtInt minor) patch (fmtInt_no_dot major)
      (fmtInt_no_dot minor) hpatch]
    simp
  refine ⟨_, fun patch hpatch => (hcur patch hpatch).trans hgen, ?_, ?_⟩
  · intro c hc
    exact generateVersions_members major minor c hc
  · intro p hp0 hp5
    refine ⟨(hcur (fmtInt p) (fmtInt_no_dot p)).trans hgen, ?_⟩
    have hp : p = 0 ∨ p = 1 ∨ p = 2 ∨ p = 3 ∨ p = 4 ∨ p = 5 := by omega
    rcases hp with rfl | rfl | rfl | rfl | rfl | rfl <;> simp

/-- C18 at the current version `v1.39.0`. -/
theorem C18_witness :
    ∃ candidates,
      (∀ patch : Str, (∀ x ∈ patch, (x == '.') = false) →
        generateCandidateSdkVersions
          ("v".toList ++ fmtInt 1 ++ ".".toList ++ fmtInt 39 ++ ".".toList ++ patch) =
          .ok candidates) ∧
      (∀ c ∈ candidates, ∃ m p : Int,
        c = fmtVersion 1 m p ∧ 39 ≤ m ∧ m ≤ 39 + 3 ∧ 0 ≤ p ∧ p ≤ 5) ∧
      (∀ p : Int, 0 ≤ p → p ≤ 5 →
        generateCandidateSdkVersions (fmtVersion 1 39 p) = .ok candidates ∧
        fmtVersion 1 39 p ∈ candidates) :=
  C18_candidates_of_current_version 1 39 (by decide) (by decide)

/-- C18, as stated, fails: for the current version `v1.9223372036854775807.0` the first
candidate is `v1.-9223372036854775806.5`, whose minor is below the current minor. -/
theorem C18_counterexample :
    fmtVersion 1 9223372036854775807 0 = "v1.9223372036854775807.0".toList ∧
    (generateCandidateSdkVersions "v1.9223372036854775807.0".toList).toOption.bind
        List.head? = some "v1.-9223372036854775806.5".toList ∧
    "v1.-9223372036854775806.5".toList = fmtVersion 1 (-9223372036854775806) 5 ∧
    Atoi "-9223372036854775806".toList = .ok (-9223372036854775806) ∧
    (-9223372036854775806 : Int) < 9223372036854775807 := by
  decide

end GoUpgrader
